import Mathlib

/-!
Verification of the wbe rendering engine against its specification.

The Rust sources are shallowly embedded:
* strings are `List Char`;
* `f32` values are modelled as exact rationals (`ℚ`);
* nom parsers become functions `List Char → Option (List Char × α)`,
  with nom's documented behaviour for `many0`, `many_till` (which tries
  its terminator first) and the zero-consumption infinite-loop checks;
* in-place mutation of the shared DOM / layout trees becomes explicit
  state passing, and panics / `eyre` errors become `Except` / `Option`;
* the external collaborators (HTTP transport, font metrics,
  Unicode word segmentation, the embedded user-agent stylesheet asset
  and the build-time generated named-entity table) are parameters.
-/

namespace Wbe

/-- Strings are modelled as lists of characters. -/
abbrev Str := List Char

/-- Rust `char::is_ascii_whitespace` (space, tab, line feed, form feed, carriage return). -/
def isAsciiWS (c : Char) : Bool :=
  c = ' ' || c = '\t' || c = '\n' || c = '\x0c' || c = '\r'

/-- ASCII letter test (`char::is_ascii_alphabetic`). -/
def isAsciiAlpha (c : Char) : Bool :=
  ('a' ≤ c && c ≤ 'z') || ('A' ≤ c && c ≤ 'Z')

/-- ASCII digit test. -/
def isAsciiDigit (c : Char) : Bool :=
  '0' ≤ c && c ≤ '9'

/-- Rust `char::is_ascii_alphanumeric`. -/
def isAsciiAlnum (c : Char) : Bool :=
  isAsciiAlpha c || isAsciiDigit c

/-- ASCII hex digit test. -/
def isAsciiHex (c : Char) : Bool :=
  isAsciiDigit c || ('a' ≤ c && c ≤ 'f') || ('A' ≤ c && c ≤ 'F')

/-- ASCII uppercase test. -/
def isAsciiUpper (c : Char) : Bool :=
  'A' ≤ c && c ≤ 'Z'

/-- Rust `char::to_ascii_lowercase`. -/
def lowerChar (c : Char) : Char :=
  if isAsciiUpper c then Char.ofNat (c.toNat + 32) else c

/-- Rust `str::to_ascii_lowercase`. -/
def lowerStr (s : Str) : Str := s.map lowerChar

/-- Rust `str::eq_ignore_ascii_case`. -/
def eqIgnoreCase (a b : Str) : Bool := lowerStr a = lowerStr b

/-- Value of an ASCII hex digit. -/
def hexVal (c : Char) : Nat :=
  if isAsciiDigit c then c.toNat - '0'.toNat
  else if 'a' ≤ c && c ≤ 'f' then c.toNat - 'a'.toNat + 10
  else if 'A' ≤ c && c ≤ 'F' then c.toNat - 'A'.toNat + 10
  else 0

/-- Split a string on ASCII whitespace, dropping empty pieces
(Rust `str::split_ascii_whitespace`). -/
def splitAsciiWS (s : Str) : List Str :=
  go s [] []
where
  go : Str → Str → List Str → List Str
    | [], cur, acc =>
      (if cur = [] then acc else cur.reverse :: acc).reverse
    | c :: rest, cur, acc =>
      if isAsciiWS c then
        go rest [] (if cur = [] then acc else cur.reverse :: acc)
      else
        go rest (c :: cur) acc

/-- Decimal rendering of a natural number. -/
def natStr (n : Nat) : Str := (toString n).data

/-- UTF-8 octets of a single scalar value (Rust `char` encoding). -/
def charUtf8 (c : Char) : List Nat :=
  let n := c.toNat
  if n < 0x80 then [n]
  else if n < 0x800 then [0xC0 + n / 64, 0x80 + n % 64]
  else if n < 0x10000 then [0xE0 + n / 4096, 0x80 + n / 64 % 64, 0x80 + n % 64]
  else [0xF0 + n / 262144, 0x80 + n / 4096 % 64, 0x80 + n / 64 % 64, 0x80 + n % 64]

/-- UTF-8 octets of a string (Rust `str::as_bytes` / `String::into_bytes`). -/
def strUtf8 (s : Str) : List Nat := s.flatMap charUtf8

/-- UTF-8 validation and decoding (Rust `str::from_utf8`): rejects
overlong encodings, surrogates and out-of-range scalars. -/
def utf8Dec : List Nat → Option Str
  | [] => some []
  | b0 :: rest =>
    if b0 < 0x80 then
      (utf8Dec rest).map (Char.ofNat b0 :: ·)
    else if b0 < 0xC2 then
      none
    else if b0 < 0xE0 then
      match rest with
      | b1 :: rest1 =>
        if 0x80 ≤ b1 && b1 < 0xC0 then
          (utf8Dec rest1).map (Char.ofNat ((b0 - 0xC0) * 64 + (b1 - 0x80)) :: ·)
        else none
      | _ => none
    else if b0 < 0xF0 then
      match rest with
      | b1 :: b2 :: rest2 =>
        let n := (b0 - 0xE0) * 4096 + (b1 - 0x80) * 64 + (b2 - 0x80)
        if 0x80 ≤ b1 && b1 < 0xC0 && 0x80 ≤ b2 && b2 < 0xC0
            && 0x800 ≤ n && (n < 0xD800 || 0xE000 ≤ n) then
          (utf8Dec rest2).map (Char.ofNat n :: ·)
        else none
      | _ => none
    else if b0 < 0xF5 then
      match rest with
      | b1 :: b2 :: b3 :: rest3 =>
        let n := (b0 - 0xF0) * 262144 + (b1 - 0x80) * 4096 + (b2 - 0x80) * 64 + (b3 - 0x80)
        if 0x80 ≤ b1 && b1 < 0xC0 && 0x80 ≤ b2 && b2 < 0xC0 && 0x80 ≤ b3 && b3 < 0xC0
            && 0x10000 ≤ n && n < 0x110000 then
          (utf8Dec rest3).map (Char.ofNat n :: ·)
        else none
      | _ => none
    else none

/-! ## nom combinators

A parser takes the remaining input and yields `some (rest, value)` on
success, `none` on failure (nom `Err::Error`, `Err::Failure` and
`Err::Incomplete` all abort the enclosing `if let Ok(..)` uses in this
code base, so one failure mode is faithful here). -/

/-- The type of an embedded nom parser. -/
def P (α : Type) : Type := Str → Option (Str × α)

instance : Monad P where
  pure a := fun input => some (input, a)
  bind p f := fun input =>
    match p input with
    | none => none
    | some (rest, a) => f a rest

/-- nom `alt` of two branches: the second runs only when the first fails. -/
def pOr {α : Type} (p q : P α) : P α := fun input =>
  match p input with
  | none => q input
  | r => r

/-- A parser that always fails (nom `fail`). -/
def pFail {α : Type} : P α := fun _ => none

/-- nom `tag`. -/
def pTag (t : Str) : P Str := fun input =>
  if t.isPrefixOf input then some (input.drop t.length, t) else none

/-- nom `tag_no_case` (returns the slice of the input that matched). -/
def pTagNoCase (t : Str) : P Str := fun input =>
  if (lowerStr t).isPrefixOf (lowerStr input) then
    some (input.drop t.length, input.take t.length)
  else none

/-- nom `char`. -/
def pChar (c : Char) : P Char := fun input =>
  match input with
  | c2 :: rest => if c2 = c then some (rest, c) else none
  | [] => none

/-- nom `anychar`. -/
def pAnyChar : P Char := fun input =>
  match input with
  | c :: rest => some (rest, c)
  | [] => none

/-- nom `one_of`. -/
def pOneOf (s : Str) : P Char := fun input =>
  match input with
  | c :: rest => if s.contains c then some (rest, c) else none
  | [] => none

/-- nom `take_while`. -/
def pTakeWhile (p : Char → Bool) : P Str := fun input =>
  some (input.dropWhile p, input.takeWhile p)

/-- nom `take_while1`. -/
def pTakeWhile1 (p : Char → Bool) : P Str := fun input =>
  match input.takeWhile p with
  | [] => none
  | taken => some (input.dropWhile p, taken)

/-- nom `is_a` (one or more characters from the given set). -/
def pIsA (s : Str) : P Str := pTakeWhile1 (fun c => s.contains c)

/-- nom `take(1usize)`. -/
def pTake1 : P Str := fun input =>
  match input with
  | c :: rest => some (rest, [c])
  | [] => none

/-- nom `opt`. -/
def pOpt {α : Type} (p : P α) : P (Option α) := fun input =>
  match p input with
  | none => some (input, none)
  | some (rest, a) => some (rest, some a)

/-- nom `peek`. -/
def pPeek {α : Type} (p : P α) : P α := fun input =>
  match p input with
  | none => none
  | some (_, a) => some (input, a)

/-- nom `map`. -/
def pMap {α β : Type} (p : P α) (f : α → β) : P β := fun input =>
  match p input with
  | none => none
  | some (rest, a) => some (rest, f a)

/-- nom `recognize`: the input slice consumed by the inner parser. -/
def pRecognize {α : Type} (p : P α) : P Str := fun input =>
  match p input with
  | none => none
  | some (rest, _) => some (rest, input.take (input.length - rest.length))

/-- nom `map_parser` / `Parser::and_then`: the second parser runs on the
first parser's output, its leftover is discarded. -/
def pMapParser {β : Type} (outer : P Str) (inner : P β) : P β := fun input =>
  match outer input with
  | none => none
  | some (rest, o1) =>
    match inner o1 with
    | none => none
    | some (_, b) => some (rest, b)

/-- Fuelled loop behind nom `many0`; nom errors out when the inner parser
succeeds without consuming input. -/
def pMany0Go {α : Type} (p : P α) : Nat → P (List α)
  | 0 => pFail
  | fuel + 1 => fun input =>
    match p input with
    | none => some (input, [])
    | some (rest, a) =>
      if rest.length < input.length then
        match pMany0Go p fuel rest with
        | none => none
        | some (rest2, as) => some (rest2, a :: as)
      else none

/-- nom `many0`. -/
def pMany0 {α : Type} (p : P α) : P (List α) := fun input =>
  pMany0Go p (input.length + 1) input

/-- nom `many1`. -/
def pMany1 {α : Type} (p : P α) : P (List α) := fun input =>
  match p input with
  | none => none
  | some (rest, a) =>
    if rest.length < input.length then
      match pMany0Go p (rest.length + 1) rest with
      | none => none
      | some (rest2, as) => some (rest2, a :: as)
    else none

/-- Fuelled loop behind nom `many_till`: the terminator `g` is tried
first at every position; `f` runs only when `g` fails, and must consume. -/
def pManyTillGo {α β : Type} (f : P α) (g : P β) : Nat → P (List α × β)
  | 0 => pFail
  | fuel + 1 => fun input =>
    match g input with
    | some (rest, b) => some (rest, ([], b))
    | none =>
      match f input with
      | none => none
      | some (rest, a) =>
        if rest.length < input.length then
          match pManyTillGo f g fuel rest with
          | none => none
          | some (rest2, (as, b)) => some (rest2, (a :: as, b))
        else none

/-- nom `many_till`. -/
def pManyTill {α β : Type} (f : P α) (g : P β) : P (List α × β) := fun input =>
  pManyTillGo f g (input.length + 1) input

/-- Fuelled loop behind nom `separated_list0` (separator then element;
nom errors when the separator succeeds without consuming). -/
def pSepListGo {α β : Type} (sep : P β) (elem : P α) : Nat → Str → List α → Option (Str × List α)
  | 0, _, _ => none
  | fuel + 1, input, acc =>
    match sep input with
    | none => some (input, acc.reverse)
    | some (rest1, _) =>
      if rest1.length < input.length then
        match elem rest1 with
        | none => some (input, acc.reverse)
        | some (rest2, a) => pSepListGo sep elem fuel rest2 (a :: acc)
      else none

/-- nom `separated_list0`. -/
def pSepList0 {α β : Type} (sep : P β) (elem : P α) : P (List α) := fun input =>
  match elem input with
  | none => some (input, [])
  | some (rest, a) => pSepListGo sep elem (input.length + 1) rest [a]

/-- nom `separated_list1`. -/
def pSepList1 {α β : Type} (sep : P β) (elem : P α) : P (List α) := fun input =>
  match elem input with
  | none => none
  | some (rest, a) => pSepListGo sep elem (input.length + 1) rest [a]

/-- nom `separated_pair`. -/
def pSepPair {α β γ : Type} (a : P α) (sep : P β) (b : P γ) : P (α × γ) := do
  let x ← a
  let _ ← sep
  let y ← b
  pure (x, y)

/-- nom `preceded`. -/
def pPreceded {α β : Type} (a : P α) (b : P β) : P β := do
  let _ ← a
  b

/-- nom `terminated`. -/
def pTerminated {α β : Type} (a : P α) (b : P β) : P α := do
  let x ← a
  let _ ← b
  pure x

/-- nom `delimited`. -/
def pDelimited {α β γ : Type} (a : P α) (b : P β) (c : P γ) : P β := do
  let _ ← a
  let x ← b
  let _ ← c
  pure x

/-! ## HTML lexer (src/html-lexer/src/lib.rs) -/

/-- Source `is_html_space`. -/
def is_html_space (c : Char) : Bool := isAsciiWS c

/-- Source `html_ident`: one or more ASCII alphanumerics or one of
`?`, `:`, `-`. -/
def html_ident : P Str :=
  pTakeWhile1 (fun c => isAsciiAlnum c || c = '?' || c = ':' || c = '-')

/-- Source `html_space`: one or more ASCII whitespace characters. -/
def html_space : P Str :=
  pTakeWhile1 (fun c => isAsciiWS c)

/-- Modelled from the spec: the named-entity table generated at build
time from the HTML-spec-published JSON is not part of src/; per the spec
it maps entity names (with semicolon) to their character values, sorted
longest name first so that the first match is the longest.  Only the
entries exercised by the claims (the amp, lt, gt families) are listed;
no other entry of the real table is a name that occurs in the inputs
considered here. -/
def ENTITIES_WITH_SEMICOLON : List (Str × Str) :=
  [("&amp;".data, "&".data), ("&AMP;".data, "&".data),
   ("&lt;".data, "<".data), ("&LT;".data, "<".data),
   ("&gt;".data, ">".data), ("&GT;".data, ">".data)]

/-- Modelled from the spec: the without-semicolon part of the generated
named-entity table, sorted longest name first (see
`ENTITIES_WITH_SEMICOLON`). -/
def ENTITIES_WITHOUT_SEMICOLON : List (Str × Str) :=
  [("&amp".data, "&".data), ("&AMP".data, "&".data),
   ("&lt".data, "<".data), ("&LT".data, "<".data),
   ("&gt".data, ">".data), ("&GT".data, ">".data)]

/-- First entry of a (longest-first) entity table whose name starts the
input; this is the `RegexSet::matches` + first-index lookup of the
source, which yields the longest match because the table is sorted. -/
def entityLookup (table : List (Str × Str)) (input : Str) : Option (Str × Str) :=
  table.find? (fun e => e.1.isPrefixOf input)

/-- Source `html_entity`: resolve a character reference.  With-semicolon
names always resolve; without-semicolon names are returned verbatim when
`in_attr` holds and the next character is `=` or ASCII alphanumeric;
otherwise any single character (the ampersand fallback) is consumed. -/
def html_entity (in_attr : Bool) : P Str := fun input =>
  match entityLookup ENTITIES_WITH_SEMICOLON input with
  | some (name, value) => some (input.drop name.length, value)
  | none =>
    match entityLookup ENTITIES_WITHOUT_SEMICOLON input with
    | some (name, value) =>
      let rest := input.drop name.length
      if in_attr && (match rest with
                     | c :: _ => c = '=' || isAsciiAlnum c
                     | [] => false) then
        some (rest, name)
      else
        some (rest, value)
    | none =>
      match input with
      | [] => none
      | c :: rest => some (rest, [c])

/-- Source `html_text`: a run of plain characters, a character
reference, or a bare `<`. -/
def html_text (in_attr : Bool) : P Str :=
  pOr (pTakeWhile1 (fun c => c ≠ '<' && c ≠ '&'))
    (pOr (html_entity in_attr) (pTag "<".data))

/-- Fuelled loop of source `quoted_attr_value`: concatenate `html_text
true` pieces until the input is exhausted (the source `expect` never
fires because `html_text` succeeds on non-empty input). -/
def quotedAttrGo : Nat → Str → Option Str
  | _, [] => some []
  | 0, _ => none
  | fuel + 1, input =>
    match html_text true input with
    | none => none
    | some (rest, text) =>
      if rest.length < input.length then
        (quotedAttrGo fuel rest).map (text ++ ·)
      else none

/-- Source `quoted_attr_value`. -/
def quoted_attr_value : P Str := fun input =>
  (quotedAttrGo (input.length + 1) input).map (fun s => (([] : Str), s))

/-- Source `html_attr_value`: quoted (double or single, references
resolved) or an unquoted run. -/
def html_attr_value : P Str :=
  pOr (pDelimited (pChar '"') (pMapParser (pTakeWhile (fun c => c ≠ '"')) quoted_attr_value) (pChar '"'))
    (pOr (pDelimited (pChar '\'') (pMapParser (pTakeWhile (fun c => c ≠ '\'')) quoted_attr_value) (pChar '\''))
      (pTakeWhile (fun c =>
        !(is_html_space c || c = '"' || c = '\'' || c = '=' || c = '<' || c = '>' || c = '\x60'))))

/-- Source `html_attr`: whitespace, a name, and an optional `=` value. -/
def html_attr : P (Str × Str) := do
  let _ ← html_space
  let name ← html_ident
  let value ← pOpt (pPreceded (do
    let _ ← pOpt html_space
    let _ ← pTag "=".data
    let _ ← pOpt html_space
    pure ()) html_attr_value)
  pure (name, value.getD [])

/-- Source `html_tag`: `<`, optional `/`, name, attributes, optional
whitespace, optional `/`, `>`. -/
def html_tag : P (Bool × Str × List (Str × Str)) := do
  let _ ← pChar '<'
  let slash ← pOpt (pTag "/".data)
  let name ← html_ident
  let attrs ← pMany0 html_attr
  let _ ← pOpt html_space
  let _ ← pOpt (pTag "/".data)
  let _ ← pChar '>'
  pure (slash.isSome, name, attrs)

/-- Index of the first occurrence of `pat` in `input` (both already
lowercased by the caller), scanning left to right. -/
def findSub (pat : Str) : Str → Option Nat
  | [] => if pat = [] then some 0 else none
  | c :: rest =>
    if pat.isPrefixOf (c :: rest) then some 0
    else (findSub pat rest).map (· + 1)

/-- Source `shortest_until_tag_no_case`: text before the first
case-insensitive occurrence of `tag`, consuming through the tag;
`Err::Incomplete` when absent (a failure here). -/
def shortest_until_tag_no_case (tag : Str) : P Str := fun input =>
  match findSub (lowerStr tag) (lowerStr input) with
  | none => none
  | some index => some (input.drop (index + tag.length), input.take index)

/-- Source `html_script`. -/
def html_script : P (List (Str × Str) × Str) := do
  let _ ← pTagNoCase "<script".data
  let attrs ← pMany0 html_attr
  let _ ← pOpt html_space
  let _ ← pTag ">".data
  let text ← shortest_until_tag_no_case "</script>".data
  pure (attrs, text)

/-- Source `html_style`. -/
def html_style : P (List (Str × Str) × Str) := do
  let _ ← pTagNoCase "<style".data
  let attrs ← pMany0 html_attr
  let _ ← pOpt html_space
  let _ ← pTag ">".data
  let text ← shortest_until_tag_no_case "</style>".data
  pure (attrs, text)

/-- Source `html_comment`. -/
def html_comment : P Str :=
  pPreceded (pTag "<!--".data) (shortest_until_tag_no_case "-->".data)

/-- Source `html_doctype`. -/
def html_doctype : P Str :=
  pPreceded (pTag "<!".data) (shortest_until_tag_no_case ">".data)

/-- Source `HtmlToken`. -/
inductive HtmlToken
  | comment (text : Str)
  | script (attrs : List (Str × Str)) (text : Str)
  | style (attrs : List (Str × Str)) (text : Str)
  | tag (closing : Bool) (name : Str) (attrs : List (Str × Str))
  | text (text : Str)
  | doctype (text : Str)
deriving DecidableEq, Repr

/-- Source `html_token`: the first of comment, script, style, tag,
doctype, text that succeeds. -/
def html_token : P HtmlToken := fun input =>
  match html_comment input with
  | some (rest, text) => some (rest, .comment text)
  | none =>
  match html_script input with
  | some (rest, (attrs, text)) => some (rest, .script attrs text)
  | none =>
  match html_style input with
  | some (rest, (attrs, text)) => some (rest, .style attrs text)
  | none =>
  match html_tag input with
  | some (rest, (closing, name, attrs)) => some (rest, .tag closing name attrs)
  | none =>
  match html_doctype input with
  | some (rest, text) => some (rest, .doctype text)
  | none =>
  match html_text false input with
  | some (rest, text) => some (rest, .text text)
  | none => none

/-- Source `HtmlWord`. -/
inductive HtmlWord
  | space (text : Str)
  | other (text : Str)
deriving DecidableEq, Repr

/-- Source `html_word`: a whitespace run or a non-whitespace run. -/
def html_word : P HtmlWord := fun input =>
  match html_space input with
  | some (rest, text) => some (rest, .space text)
  | none =>
    match pTakeWhile1 (fun c => !isAsciiWS c) input with
    | some (rest, text) => some (rest, .other text)
    | none => none

/-! ## Style data model (src/dom/src/style.rs, src/css-parser/src/lib.rs)

`f32` is modelled as `ℚ`.  egui `Color32::from_rgba_unmultiplied` is
modelled as the raw (r, g, b, a) quadruple; the claims only compare
colors for equality, never read premultiplied components. -/

/-- egui `Color32` as the raw rgba bytes. -/
structure Color32 where
  r : Nat
  g : Nat
  b : Nat
  a : Nat
deriving DecidableEq, Repr

/-- egui `Color32::BLACK`. -/
def Color32.BLACK : Color32 := ⟨0, 0, 0, 255⟩

/-- egui `Color32::TRANSPARENT`. -/
def Color32.TRANSPARENT : Color32 := ⟨0, 0, 0, 0⟩

/-- Source `CssColor`. -/
inductive CssColor
  | currentColor
  | other (c : Color32)
deriving DecidableEq, Repr

/-- Source `CssLength`. -/
inductive CssLength
  | zero
  | percent (x : ℚ)
  | px (x : ℚ)
  | em (x : ℚ)
deriving DecidableEq, Repr

/-- Source `CssLength::resolve`. -/
def CssLength.resolve : CssLength → ℚ → ℚ → ℚ
  | .zero, _, _ => 0
  | .percent x, percent_base, _ => x / 100 * percent_base
  | .px x, _, _ => x
  | .em x, _, em_base => x * em_base

/-- Source `CssLength::resolve_no_percent` (`Percent` yields `None`;
the `f32::NAN` percent base of the source is unreachable in the other
arms, which ignore it — 0 stands in for it here). -/
def CssLength.resolve_no_percent : CssLength → ℚ → Option ℚ
  | .percent _, _ => none
  | other, em_base => some (other.resolve 0 em_base)

/-- Source `CssQuad`. -/
structure CssQuad (T : Type) where
  top : Option T
  right : Option T
  bottom : Option T
  left : Option T
deriving DecidableEq, Repr

/-- Source `CssQuad::four`. -/
def CssQuad.four {T : Type} (t r b l : Option T) : CssQuad T := ⟨t, r, b, l⟩

/-- Source `CssQuad::one`. -/
def CssQuad.one {T : Type} (all : Option T) : CssQuad T := CssQuad.four all all all all

/-- Source `CssQuad::two`. -/
def CssQuad.two {T : Type} (v h : Option T) : CssQuad T := CssQuad.four v h v h

/-- Source `CssQuad::three`. -/
def CssQuad.three {T : Type} (t h b : Option T) : CssQuad T := CssQuad.four t h b h

/-- Source `CssQuad::default` (all sides unset). -/
def CssQuad.dfl {T : Type} : CssQuad T := ⟨none, none, none, none⟩

/-- Source `CssQuad::top_unwrap` (the `unwrap` panic is unreachable at
its call sites, which follow `require_all_valid`; the given fallback
stands in for the panic). -/
def CssQuad.top_unwrap {T : Type} (q : CssQuad T) (dflt : T) : T := q.top.getD dflt

/-- Source `CssQuad::right_unwrap` (see `top_unwrap`). -/
def CssQuad.right_unwrap {T : Type} (q : CssQuad T) (dflt : T) : T := q.right.getD dflt

/-- Source `CssQuad::bottom_unwrap` (see `top_unwrap`). -/
def CssQuad.bottom_unwrap {T : Type} (q : CssQuad T) (dflt : T) : T := q.bottom.getD dflt

/-- Source `CssQuad::left_unwrap` (see `top_unwrap`). -/
def CssQuad.left_unwrap {T : Type} (q : CssQuad T) (dflt : T) : T := q.left.getD dflt

/-- Source `CssQuad::top_unwrap_or` (falls back to the initial quad's
`top` side; so do the right/bottom/left variants in the source — a
quirk kept faithfully). -/
def CssQuad.top_unwrap_or {T : Type} (q : CssQuad T) (initial : CssQuad T) (dflt : T) : T :=
  q.top.getD (initial.top.getD dflt)

/-- Source `CssQuad::right_unwrap_or` (falls back to the initial
`top`). -/
def CssQuad.right_unwrap_or {T : Type} (q : CssQuad T) (initial : CssQuad T) (dflt : T) : T :=
  q.right.getD (initial.top.getD dflt)

/-- Source `CssQuad::bottom_unwrap_or` (falls back to the initial
`top`). -/
def CssQuad.bottom_unwrap_or {T : Type} (q : CssQuad T) (initial : CssQuad T) (dflt : T) : T :=
  q.bottom.getD (initial.top.getD dflt)

/-- Source `CssQuad::left_unwrap_or` (falls back to the initial
`top`). -/
def CssQuad.left_unwrap_or {T : Type} (q : CssQuad T) (initial : CssQuad T) (dflt : T) : T :=
  q.left.getD (initial.top.getD dflt)

/-- Source `CssQuad::map`. -/
def CssQuad.map {T U : Type} (q : CssQuad T) (f : T → Option U) : CssQuad U :=
  CssQuad.four (q.top.bind f) (q.right.bind f) (q.bottom.bind f) (q.left.bind f)

/-- Source `CssQuad::map_or`: set sides map through `f`, unset sides map
the corresponding side of the initial quad (whose sides are all set at
every call site; a panic fallback of `none` keeps this total). -/
def CssQuad.map_or {T U : Type} (q : CssQuad T) (initial : CssQuad T) (f : T → Option U) :
    CssQuad U :=
  CssQuad.four
    (match q.top with | some v => f v | none => initial.top.bind f)
    (match q.right with | some v => f v | none => initial.right.bind f)
    (match q.bottom with | some v => f v | none => initial.bottom.bind f)
    (match q.left with | some v => f v | none => initial.left.bind f)

/-- Source `CssQuad::top_map_or` (set side mapped through `f`, else the
initial side mapped; `none` stands in for the double-unwrap panic). -/
def CssQuad.top_map_or {T U : Type} (q : CssQuad T) (initial : CssQuad T) (f : T → Option U) :
    Option U :=
  match q.top.bind f with
  | some u => some u
  | none => initial.top.bind f

/-- Source `CssQuad::right_map_or` (see `top_map_or`). -/
def CssQuad.right_map_or {T U : Type} (q : CssQuad T) (initial : CssQuad T) (f : T → Option U) :
    Option U :=
  match q.right.bind f with
  | some u => some u
  | none => initial.right.bind f

/-- Source `CssQuad::bottom_map_or` (see `top_map_or`). -/
def CssQuad.bottom_map_or {T U : Type} (q : CssQuad T) (initial : CssQuad T) (f : T → Option U) :
    Option U :=
  match q.bottom.bind f with
  | some u => some u
  | none => initial.bottom.bind f

/-- Source `CssQuad::left_map_or` (see `top_map_or`). -/
def CssQuad.left_map_or {T U : Type} (q : CssQuad T) (initial : CssQuad T) (f : T → Option U) :
    Option U :=
  match q.left.bind f with
  | some u => some u
  | none => initial.left.bind f

/-- Source `CssQuad::require_all_valid`. -/
def CssQuad.require_all_valid {T : Type} (q : CssQuad T) : Option (CssQuad T) :=
  if q.top.isNone || q.right.isNone || q.bottom.isNone || q.left.isNone then none
  else some q

/-- Source `CssQuad::parse_shorthand`: split on ASCII whitespace, feed
one/two/three/four values through the given value parser, and demand
that every side parsed. -/
def CssQuad.parse_shorthand {T : Type} (value : Str) (p : Str → Option T) :
    Option (CssQuad T) :=
  match splitAsciiWS value with
  | [a] => (CssQuad.one (p a)).require_all_valid
  | [a, b] => (CssQuad.two (p a) (p b)).require_all_valid
  | [a, b, c] => (CssQuad.three (p a) (p b) (p c)).require_all_valid
  | [a, b, c, d] => (CssQuad.four (p a) (p b) (p c) (p d)).require_all_valid
  | _ => none

/-- Source `CssDisplay`. -/
inductive CssDisplay
  | dnone
  | inline
  | block
  | inlineBlock
  | listItem
deriving DecidableEq, Repr

/-- Source `CssFontStyle`. -/
inductive CssFontStyle
  | normal
  | italic
deriving DecidableEq, Repr

/-- Source `CssFontWeight`. -/
inductive CssFontWeight
  | normal
  | bold
deriving DecidableEq, Repr

/-- Source `CssFont`. -/
structure CssFont where
  line_height : Option ℚ
  size : Option ℚ
  family : Option (List Str)
  style : Option CssFontStyle
  weight : Option CssFontWeight
deriving DecidableEq, Repr

/-- Source `FONT_SIZE` (wbe_core). -/
def FONT_SIZE : ℚ := 16

/-- Source `CssFont::initial`. -/
def CssFont.initial : CssFont :=
  { line_height := some (5/4), size := some FONT_SIZE, family := some ["serif".data],
    style := some .normal, weight := some .normal }

/-- Source `CssFont::none`. -/
def CssFont.nne : CssFont :=
  { line_height := none, size := none, family := none, style := none, weight := none }

/-- Source `CssWidth`. -/
inductive CssWidth
  | auto
  | length (l : CssLength)
deriving DecidableEq, Repr

/-- Modelled from the spec: `CssHeight` (`auto` or a length) is used by
the style and layout crates but its definition is not under src/. -/
inductive CssHeight
  | auto
  | length (l : CssLength)
deriving DecidableEq, Repr

/-- Source `CssTextAlign` (declared in the style crate's imports; the
spec lists `Left | Right | Center`). -/
inductive CssTextAlign
  | left
  | right
  | center
deriving DecidableEq, Repr

/-- Source `CssBorder`. -/
structure CssBorder where
  width : Option CssLength
  color : Option CssColor
deriving DecidableEq, Repr

/-- Source `CssBorder::none` (zero width, magenta marker color). -/
def CssBorder.nne : CssBorder :=
  { width := some .zero, color := some (.other ⟨255, 0, 255, 255⟩) }

/-- Source `Style` (src/dom/src/style.rs lines 22-32) with the `height`
and `text_align` fields the style and layout crates use; those two
fields are modelled from the spec (§3 lists them) because the snapshot
of src/dom/src/style.rs predates them. -/
structure Style where
  display : Option Str
  margin : CssQuad CssLength
  padding : CssQuad CssLength
  border : CssQuad CssBorder
  font : Option CssFont
  width : Option CssWidth
  background_color : Option CssColor
  color : Option Color32
  height : Option CssHeight
  text_align : Option CssTextAlign
deriving DecidableEq, Repr

/-- Source `INITIAL_STYLE` (with the spec-modelled initial `height`
`auto` and `text_align` `Left`). -/
def INITIAL_STYLE : Style :=
  { display := some "inline".data
    margin := CssQuad.one (some .zero)
    padding := CssQuad.one (some .zero)
    border := CssQuad.one (some CssBorder.nne)
    font := some CssFont.initial
    width := some .auto
    background_color := some (.other Color32.TRANSPARENT)
    color := some Color32.BLACK
    height := some .auto
    text_align := some .left }

/-- Source `Style::empty`. -/
def Style.empty : Style :=
  { display := none, margin := CssQuad.dfl, padding := CssQuad.dfl, border := CssQuad.dfl,
    font := none, width := none, background_color := none, color := none,
    height := none, text_align := none }

/-- Source `Style::new_inherited`: only `font` and `color` carry over,
every other field resets to the initial style. -/
def Style.new_inherited (s : Style) : Style :=
  { INITIAL_STYLE with font := s.font, color := s.color }

/-- Source `Style::apply` (src/dom/src/style.rs lines 116-123): only
`display`, `background_color` and `color` are overlaid. -/
def Style.apply (s other : Style) : Style :=
  { s with
    display := other.display.or s.display
    background_color := other.background_color.or s.background_color
    color := other.color.or s.color }

/-- Source `Style::display`: the string field (or the initial
`"inline"`) mapped to `CssDisplay`; unknown values are `Inline`. -/
def Style.displayV (s : Style) : CssDisplay :=
  let d := s.display.getD (INITIAL_STYLE.display.getD [])
  if d = "none".data then .dnone
  else if d = "inline".data then .inline
  else if d = "block".data then .block
  else .inline

/-- Source `Style::get`: a field of this style, or of the initial style
when unset (the initial style sets every field, so the fallback is the
given initial value). -/
def Style.getQ {T : Type} (s : Style) (getter : Style → Option T) (dflt : T) : T :=
  (getter s).getD ((getter INITIAL_STYLE).getD dflt)

/-- Source `Style::font_size`. -/
def Style.font_size (s : Style) : ℚ :=
  ((s.font.bind (·.size))).getD ((INITIAL_STYLE.font.bind (·.size)).getD FONT_SIZE)

/-- Source `Style::font_style`. -/
def Style.font_styleV (s : Style) : CssFontStyle :=
  ((s.font.bind (·.style))).getD ((INITIAL_STYLE.font.bind (·.style)).getD .normal)

/-- Source `Style::font_weight`. -/
def Style.font_weight (s : Style) : CssFontWeight :=
  ((s.font.bind (·.weight))).getD ((INITIAL_STYLE.font.bind (·.weight)).getD .normal)

/-- Source `Style::color`. -/
def Style.colorV (s : Style) : Color32 :=
  s.getQ (·.color) Color32.BLACK

/-- Source `Style::background_color`. -/
def Style.background_colorV (s : Style) : CssColor :=
  s.getQ (·.background_color) (.other Color32.TRANSPARENT)

/-- Source `Style::border_width` (the quad of border widths). -/
def Style.border_width (s : Style) : CssQuad CssLength :=
  s.border.map (·.width)

/-- Source `Style::border_top_color` (and siblings below). -/
def Style.border_top_color (s : Style) : CssColor :=
  (s.border.top_map_or INITIAL_STYLE.border (·.color)).getD .currentColor

/-- Source `Style::border_right_color`. -/
def Style.border_right_color (s : Style) : CssColor :=
  (s.border.right_map_or INITIAL_STYLE.border (·.color)).getD .currentColor

/-- Source `Style::border_bottom_color`. -/
def Style.border_bottom_color (s : Style) : CssColor :=
  (s.border.bottom_map_or INITIAL_STYLE.border (·.color)).getD .currentColor

/-- Source `Style::border_left_color`. -/
def Style.border_left_color (s : Style) : CssColor :=
  (s.border.left_map_or INITIAL_STYLE.border (·.color)).getD .currentColor

/-- Source `Style::border_top_width`. -/
def Style.border_top_width (s : Style) : CssLength :=
  (s.border.top_map_or INITIAL_STYLE.border (·.width)).getD .zero

/-- Source `Style::border_right_width`. -/
def Style.border_right_width (s : Style) : CssLength :=
  (s.border.right_map_or INITIAL_STYLE.border (·.width)).getD .zero

/-- Source `Style::border_bottom_width`. -/
def Style.border_bottom_width (s : Style) : CssLength :=
  (s.border.bottom_map_or INITIAL_STYLE.border (·.width)).getD .zero

/-- Source `Style::border_left_width`. -/
def Style.border_left_width (s : Style) : CssLength :=
  (s.border.left_map_or INITIAL_STYLE.border (·.width)).getD .zero

/-- Source `Style::box_width`: `auto` widths fill the available space; a
length adds the horizontal margins, borders and paddings. -/
def Style.box_width (s : Style) (percent_base : ℚ) : ℚ :=
  let font_size := s.font_size
  match s.getQ (·.width) .auto with
  | .auto => percent_base
  | .length x =>
    let margin_left := (s.margin.left_unwrap_or INITIAL_STYLE.margin .zero).resolve percent_base font_size
    let padding_left := (s.padding.left_unwrap_or INITIAL_STYLE.padding .zero).resolve percent_base font_size
    let border_left := (s.border_left_width.resolve_no_percent font_size).getD 0
    let border_right := (s.border_right_width.resolve_no_percent font_size).getD 0
    let padding_right := (s.padding.right_unwrap_or INITIAL_STYLE.padding .zero).resolve percent_base font_size
    let margin_right := (s.margin.right_unwrap_or INITIAL_STYLE.margin .zero).resolve percent_base font_size
    x.resolve percent_base font_size
      + margin_left + padding_left + border_left + border_right + padding_right + margin_right

/-- Modelled from the spec: `Style::text_align` getter used by the
layout crate (absent from the style.rs snapshot); reads the field with
the usual initial-style fallback. -/
def Style.text_alignV (s : Style) : CssTextAlign :=
  s.getQ (·.text_align) .left

/-- Modelled from the spec: `Style::box_height` used by the layout crate
(absent from the style.rs snapshot); §4.6: the content bottom is
overridden only when the node declares an explicit height; a percent
height has no base here and resolves to `none`. -/
def Style.box_height (s : Style) : Option ℚ :=
  match s.getQ (·.height) .auto with
  | .auto => none
  | .length l => l.resolve_no_percent s.font_size

/-- Modelled from the spec: `Style::line_height` resolution used by the
layout crate; §4.6: `line_height = style.line_height × font_size` when
set, else the font metric height (passed by the caller). -/
def Style.line_height_or (s : Style) (font_height : ℚ) : ℚ :=
  match s.font.bind (·.line_height) with
  | some lh => lh * s.font_size
  | none => font_height

/-- Source `CssColor::resolve`. -/
def CssColor.resolve : CssColor → Color32 → Color32
  | .currentColor, current => current
  | .other c, _ => c

/-! ## DOM (src/dom/src/lib.rs) -/

/-- Source `NodeData`. -/
inductive NodeData
  | document
  | element (name : Str) (attrs : List (Str × Str)) (style : Style)
  | text (value : Str) (style : Style)
  | comment (value : Str)

/-- Source `NodeType`. -/
inductive NodeType
  | document
  | element
  | text
  | comment
deriving DecidableEq, Repr

/-- Source `Node`: the owned tree (the `Arc`/`RwLock` sharing and weak
parent links of the source become a plain tree; parents and siblings
are recovered by the traversals that need them). -/
inductive Node
  | mk (data : NodeData) (children : List Node)

/-- The payload of a node. -/
def Node.data : Node → NodeData
  | .mk d _ => d

/-- The children of a node. -/
def Node.children : Node → List Node
  | .mk _ c => c

/-- Source `Node::element` (attribute names and the element name are
stored exactly as given). -/
def Node.element (name : Str) (attrs : List (Str × Str)) : Node :=
  .mk (.element name attrs Style.empty) []

/-- Source `Node::text`. -/
def Node.text (value : Str) : Node :=
  .mk (.text value Style.empty) []

/-- Source `Node::comment`. -/
def Node.comment (value : Str) : Node :=
  .mk (.comment value) []

/-- Source `Node::type`. -/
def Node.type : Node → NodeType
  | .mk (.document) _ => .document
  | .mk (.element ..) _ => .element
  | .mk (.text ..) _ => .text
  | .mk (.comment _) _ => .comment

/-- Source `Node::name`. -/
def Node.name : Node → Str
  | .mk (.document) _ => "#document".data
  | .mk (.element n _ _) _ => n
  | .mk (.text ..) _ => "#text".data
  | .mk (.comment _) _ => "#comment".data

/-- Source `Node::value`. -/
def Node.value : Node → Option Str
  | .mk (.text v _) _ => some v
  | .mk (.comment v) _ => some v
  | _ => none

/-- Source `Node::attr`: the first attribute with the given (exact
case) name. -/
def Node.attr (n : Node) (name : Str) : Option Str :=
  match n.data with
  | .element _ attrs _ => (attrs.find? (fun a => a.1 = name)).map (·.2)
  | _ => none

/-- Source `NodeData::style` (documents and comments read as the empty
style). -/
def NodeData.style : NodeData → Style
  | .document => Style.empty
  | .element _ _ s => s
  | .text _ s => s
  | .comment _ => Style.empty

/-- Style of a node (`node.data().style()`). -/
def Node.style (n : Node) : Style := n.data.style

mutual

/-- A node followed by its descendants, pre-order. -/
def descTree : Node → List Node
  | .mk d cs => .mk d cs :: descList cs

/-- Pre-order listing of a forest (each root followed by its
descendants); the loop of source `Node::descendants`. -/
def descList : List Node → List Node
  | [] => []
  | n :: rest => descTree n ++ descList rest

end

/-- Source `Node::descendants`: all proper descendants in pre-order
(the iterator never yields the node it starts from). -/
def Node.descendants : Node → List Node
  | .mk _ children => descList children

/-- Source `Node::text_content`: concatenation of the values of all
text descendants in order. -/
def Node.text_content (n : Node) : Str :=
  (n.descendants.filter (fun d => d.type = NodeType.text)).flatMap (fun d => d.value.getD [])

/-- Erase the style of one payload; used by `Node.strip`. -/
def NodeData.strip : NodeData → NodeData
  | .document => .document
  | .element n a _ => .element n a Style.empty
  | .text v _ => .text v Style.empty
  | .comment v => .comment v

mutual

/-- Structure-and-content view of a node with all styles erased; used to
state that style resolution only sets styles. -/
def Node.strip : Node → Node
  | .mk d children => .mk d.strip (stripList children)

/-- `Node.strip` mapped over a forest. -/
def stripList : List Node → List Node
  | [] => []
  | n :: rest => n.strip :: stripList rest

end

/-! ## HTML tree constructor (src/html-parser/src/lib.rs)

The source keeps a stack of open elements whose nodes are already
attached to their parents through shared mutable links; here the stack
holds open frames (payload plus the children completed so far) and a
frame attaches to its parent when it closes (or when the input ends),
which yields the same final tree. -/

/-- Source `NO_NEST`: (names of the incoming child, stack suffix to pop). -/
def NO_NEST : List (List Str × List Str) :=
  [(["p".data, "table".data, "form".data, "h1".data, "h2".data, "h3".data,
     "h4".data, "h5".data, "h6".data], ["p".data]),
   (["li".data], ["li".data]),
   (["dt".data, "dd".data], ["dt".data]),
   (["dt".data, "dd".data], ["dd".data]),
   (["tr".data], ["tr".data]),
   (["tr".data], ["tr".data, "td".data]),
   (["tr".data], ["tr".data, "th".data]),
   (["td".data, "th".data], ["td".data]),
   (["td".data, "th".data], ["th".data])]

/-- Source `SELF_CLOSING` (the void set). -/
def SELF_CLOSING : List Str :=
  ["!doctype".data, "area".data, "base".data, "br".data, "col".data, "embed".data,
   "hr".data, "img".data, "input".data, "link".data, "meta".data, "param".data,
   "source".data, "track".data, "wbr".data]

/-- An open frame of the tree constructor: a node payload and the
children attached so far. -/
structure PFrame where
  data : NodeData
  kids : List Node

/-- Tree-constructor state: open frames (head = innermost; the bottom
frame is the document) and whether an `html` start tag was seen (the
`html` variable of the source). -/
structure PState where
  stack : List PFrame
  htmlSeen : Bool

/-- The name a frame contributes to `names_stack` (element name; the
document frame is never consulted). -/
def PFrame.name (f : PFrame) : Str :=
  match f.data with
  | .element n _ _ => n
  | .document => "#document".data
  | .text .. => "#text".data
  | .comment _ => "#comment".data

/-- The source `names_stack`, innermost first (the document frame is not
on it). -/
def PState.names (st : PState) : List Str :=
  (st.stack.take (st.stack.length - 1)).map PFrame.name

/-- Append a completed node to the current parent (the innermost open
frame). -/
def PState.push (st : PState) (n : Node) : PState :=
  match st.stack with
  | [] => st
  | f :: rest => { st with stack := { f with kids := f.kids ++ [n] } :: rest }

/-- Close the innermost open element: its frame becomes a node appended
to the frame below (a no-op on the bottom frame, which the source never
pops). -/
def PState.closeOne (st : PState) : PState :=
  match st.stack with
  | f :: g :: rest =>
    { st with stack := { g with kids := g.kids ++ [Node.mk f.data f.kids] } :: rest }
  | _ => st

/-- Close `n` innermost open elements. -/
def PState.closeN (st : PState) : Nat → PState
  | 0 => st
  | n + 1 => (st.closeOne).closeN n

/-- Rust `Vec::ends_with` on `names_stack`: with names innermost first,
the stack ends with `suffix` iff the reversed suffix heads the list. -/
def namesEndWith (names : List Str) (suffix : List Str) : Bool :=
  suffix.reverse.isPrefixOf names

/-- The `NO_NEST` loop of the source: each matching entry whose suffix
currently ends the stack pops that suffix (later entries see the
updated stack). -/
def applyNoNest (name : Str) (st : PState) : PState :=
  NO_NEST.foldl
    (fun st entry =>
      if entry.1.contains name then
        if namesEndWith st.names entry.2 then st.closeN entry.2.length else st
      else st)
    st

/-- Tree-constructor errors: a tokenizer failure with the offending
rest of input, the `html.unwrap()` panic of the inline `<style>`
handling, or exhausted fuel (proved unreachable). -/
inductive ParseErr
  | tokenErr (rest : Str)
  | stylePanic
  | fuel
deriving DecidableEq, Repr

/-- One token transition of the tree constructor (the match arms of
source `parse_html`).

* `script`/`style` append a complete element whose single child is the
  raw text.
* the `style` arm then parses the CSS (`css_file`, which always
  succeeds) and dereferences the `html` element — a panic when no
  `<html>` start tag has been seen; when it has, the arm only writes
  legacy string-typed style fields that nothing later reads (style
  resolution overwrites every element's style), so that write is not
  modelled.
* a start tag runs the `NO_NEST` pops, appends the element and, when
  not void, opens it; an exact-case `html` start tag records the html
  element.
* an end tag pops to the nearest ASCII-case-insensitive match, if any.
* `doctype` is ignored (modelled from the spec §4.2: the snapshot's
  token match lacks this arm). -/
def parseStep (st : PState) : HtmlToken → Except ParseErr PState
  | .comment text => .ok (st.push (Node.comment text))
  | .script attrs text =>
    .ok (st.push (Node.mk (.element "script".data attrs Style.empty) [Node.text text]))
  | .style attrs text =>
    let st := st.push (Node.mk (.element "style".data attrs Style.empty) [Node.text text])
    if st.htmlSeen then .ok st else .error .stylePanic
  | .tag false name attrs =>
    let st := applyNoNest name st
    let st := if name = "html".data then { st with htmlSeen := true } else st
    if SELF_CLOSING.contains name then
      .ok (st.push (Node.element name attrs))
    else
      .ok { st with stack := ⟨.element name attrs Style.empty, []⟩ :: st.stack }
  | .tag true name _ =>
    match st.names.findIdx? (fun x => eqIgnoreCase x name) with
    | some i => .ok (st.closeN (i + 1))
    | none => .ok st
  | .text text => .ok (st.push (Node.text text))
  | .doctype _ => .ok st

/-- Close every still-open element and return the document node
(`stack[0]` of the source, to which all descendants are attached). -/
def PState.finish (st : PState) : Node :=
  match (st.closeN (st.stack.length - 1)).stack with
  | f :: _ => Node.mk f.data f.kids
  | [] => Node.mk .document []

/-- The token loop of source `parse_html`, fuelled by the input length
(each successful token consumes at least one character, so the fuel
never runs out — see the termination theorem). -/
def parseLoop : Nat → Str → PState → Except ParseErr Node
  | _, [], st => .ok st.finish
  | 0, _, _ => .error .fuel
  | fuel + 1, input, st =>
    match html_token input with
    | none => .error (.tokenErr input)
    | some (rest, token) =>
      match parseStep st token with
      | .error e => .error e
      | .ok st2 => parseLoop fuel rest st2

/-- Source `parse_html`. -/
def parse_html (input : Str) : Except ParseErr Node :=
  parseLoop input.length input ⟨[⟨.document, []⟩], false⟩

/-! ## CSS parser (src/css-parser/src/lib.rs) -/

/-- Source `is_css_wordnum`: non-ASCII, ASCII alphanumeric, `_` or `-`. -/
def is_css_wordnum (c : Char) : Bool :=
  !(c.toNat < 128) || isAsciiAlnum c || c = '_' || c = '-'

/-- Source `css_space`. -/
def css_space : P Str :=
  pTakeWhile1 (fun c => isAsciiWS c)

/-- Source `css_ident`: `--`, or an optional `-` and a letter or `_`,
then word characters (ASCII alphanumerics, `_`, `-`). -/
def css_ident : P Str :=
  pRecognize (do
    let _ ← pOr (pTag "--".data)
      (pRecognize (do
        let _ ← pOpt (pTag "-".data)
        let _ ← pMapParser pTake1 (pOr (pTakeWhile1 isAsciiAlpha) (pTag "_".data))
        pure ()))
    let _ ← pTakeWhile (fun c => isAsciiAlnum c || c = '_' || c = '-')
    pure ())

/-- Source `css_hash`: `#` then one or more word characters. -/
def css_hash : P Str :=
  pRecognize (do
    let _ ← pTag "#".data
    let _ ← pTakeWhile1 is_css_wordnum
    pure ())

/-- Source `css_selector`: `*`, an identifier, a hash, or `.identifier`. -/
def css_selector : P Str :=
  pOr (pOr (pTag "*".data) css_ident)
    (pOr css_hash
      (pRecognize (do
        let _ ← pTag ".".data
        let _ ← css_ident
        pure ())))

/-- Source `CompoundSelector`. -/
abbrev CompoundSelector := List Str

/-- Source `css_selector_compound`. -/
def css_selector_compound : P CompoundSelector :=
  pMany1 css_selector

/-- Source `Combinator`. -/
inductive Combinator
  | descendant
  | child
  | nextSibling
  | subsequentSibling
deriving DecidableEq, Repr

/-- Source `css_selector_combinator`. -/
def css_selector_combinator : P Combinator :=
  pOr (pMap css_space (fun _ => Combinator.descendant))
    (pOr (pMap (pTag ">".data) (fun _ => Combinator.child))
      (pOr (pMap (pTag "+".data) (fun _ => Combinator.nextSibling))
        (pMap (pTag "~".data) (fun _ => Combinator.subsequentSibling))))

/-- Source `ComplexSelector`. -/
abbrev ComplexSelector := List (CompoundSelector × Combinator) × CompoundSelector

/-- Source `css_selector_complex`: `many_till` of (compound, combinator)
pairs ended by a compound.  nom's `many_till` tries the terminator
first, so whenever a compound parses at the start the result is that
compound with no combinator pairs. -/
def css_selector_complex : P ComplexSelector :=
  pManyTill (do
    let c ← css_selector_compound
    let k ← css_selector_combinator
    pure (c, k)) css_selector_compound

/-- Source `SelectorList`. -/
abbrev SelectorList := List ComplexSelector

/-- Source `css_selector_list`. -/
def css_selector_list : P SelectorList :=
  pSepList1 (do
    let _ ← pOpt css_space
    let _ ← pTag ",".data
    let _ ← pOpt css_space
    pure ()) css_selector_complex

/-- Source `css_comment`. -/
def css_comment : P Str :=
  pRecognize (do
    let _ ← pTag "/*".data
    let _ ← pManyTill pAnyChar (pTag "*/".data)
    pure ())

/-- Source `css_big_token`: the parser surrounded on both sides by
optional whitespace / comment / whitespace. -/
def css_big_token {α : Type} (p : P α) : P α := do
  let _ ← pOpt css_space
  let _ ← pOpt css_comment
  let _ ← pOpt css_space
  let x ← p
  let _ ← pOpt css_space
  let _ ← pOpt css_comment
  let _ ← pOpt css_space
  pure x

/-- Source `stag`. -/
def stag (x : Str) : P Str := css_big_token (pTag x)

/-- Source declaration/rule types. -/
abbrev Declaration := Str × Str

/-- Source `DeclarationList`. -/
abbrev DeclarationList := List Declaration

/-- Source `Rule`. -/
abbrev Rule := SelectorList × DeclarationList

/-- Source `RuleList`. -/
abbrev RuleList := List Rule

/-- The declaration value parser of source `css_rule`: characters up to
a `;` or `}`, where the terminator also swallows the whitespace that
precedes it (so a value before ` }` keeps no delimiter but gains the
consumed trailing space — `recognize` spans everything the inner
parser consumed). -/
def cssDeclValue : P Str :=
  pRecognize (pManyTill pAnyChar (do
    let _ ← pOpt css_space
    let _ ← pPeek (pOneOf ";\x7d".data)
    pure ()))

/-- Source `css_rule`: a selector list, `{`, a `;`-separated declaration
list of `ident : value` pairs, trailing `;`/whitespace, and `}`. -/
def css_rule : P Rule := do
  let selectors ← css_selector_list
  let _ ← pOpt css_space
  let _ ← pTag "\x7b".data
  let _ ← pOpt css_space
  let declarations ← pSepList0 (css_big_token (pTag ";".data))
    (pSepPair (css_big_token css_ident) (css_big_token (pTag ":".data)) cssDeclValue)
  let _ ← pMany0 (pOr (pTag ";".data) css_space)
  let _ ← pTag "\x7d".data
  pure (selectors, declarations)

/-- nom `take_until`: everything before the first occurrence of the
pattern (failing when it never occurs). -/
def pTakeUntil (pat : Str) : P Str := fun input =>
  match findSub pat input with
  | none => none
  | some index => some (input.drop index, input.take index)

/-- Source `rule_with_bad_selector`: skip through the next `}`. -/
def rule_with_bad_selector : P Str :=
  pRecognize (do
    let _ ← pTakeUntil "\x7d".data
    let _ ← pTag "\x7d".data
    pure ())

/-- The recovery loop of source `css_file`, fuelled by the input length
(both the rule branch and the recovery branch always consume; when
neither applies the rest of the input is dropped). -/
def cssFileGo : Nat → Str → List Rule → List Rule
  | _, [], acc => acc.reverse
  | 0, _, acc => acc.reverse
  | fuel + 1, input, acc =>
    match css_big_token css_rule input with
    | some (rest, rule) =>
      if rest.length < input.length then cssFileGo fuel rest (rule :: acc)
      else acc.reverse
    | none =>
      match rule_with_bad_selector input with
      | some (rest, _) =>
        if rest.length < input.length then cssFileGo fuel rest acc
        else acc.reverse
      | none => acc.reverse

/-- Source `css_file` (its loop always ends with empty remaining input
and never fails). -/
def css_file (input : Str) : RuleList :=
  cssFileGo (input.length + 1) input []

/-- Numeric value of a run of ASCII digits. -/
def digitsVal (s : Str) : Nat :=
  s.foldl (fun a c => a * 10 + (c.toNat - '0'.toNat)) 0

/-- nom `float`, with the value as an exact rational (the source reads
an `f32`; the claims never depend on rounding).  Grammar: optional
sign, digits with optional fraction (or a leading-dot fraction), and an
optional exponent.  The `nan`/`inf` exceptional forms of nom cannot
reach the call sites (their inputs are digit runs) and are not
modelled. -/
def pFloat : P ℚ := do
  let sg ← pOpt (pOr (pChar '+') (pChar '-'))
  let (ip, fp) ← pOr
    (do
      let d ← pTakeWhile1 isAsciiDigit
      let f ← pOpt (pPreceded (pChar '.') (pTakeWhile isAsciiDigit))
      pure (d, f.getD []))
    (do
      let _ ← pChar '.'
      let d ← pTakeWhile1 isAsciiDigit
      pure (([] : Str), d))
  let ex ← pOpt (do
    let _ ← pOr (pChar 'e') (pChar 'E')
    let esg ← pOpt (pOr (pChar '+') (pChar '-'))
    let ed ← pTakeWhile1 isAsciiDigit
    pure (esg, ed))
  let mag : ℚ := digitsVal ip + (digitsVal fp : ℚ) / ((10 : ℚ) ^ fp.length)
  let mag : ℚ := match ex with
    | some (some '-', ed) => mag / (10 : ℚ) ^ digitsVal ed
    | some (_, ed) => mag * (10 : ℚ) ^ digitsVal ed
    | none => mag
  pure (if sg = some '-' then -mag else mag)

/-- Rust `as u8` on an `f32`: truncate toward zero and saturate to
0..255. -/
def ratU8 (q : ℚ) : Nat :=
  if q ≤ 0 then 0
  else if 255 ≤ q then 255
  else Int.toNat ⌊q⌋

/-- Source `color_numeric`: `rgb(a)(...)` with numeric or percent
components, or 8/4-bit hex colors. -/
def color_numeric : P Color32 :=
  let d8 : P Nat := pMap (do
    let x ← pFloat
    let p ← pOpt (pTag "%".data)
    pure (x, p)) (fun (x, p) => ratU8 (x / (if p.isSome then (255 : ℚ) / 100 else 1)))
  let h8 : P Nat := pMap (pRecognize (do
    let _ ← pMapParser pTake1 (pTakeWhile1 isAsciiHex)
    let _ ← pMapParser pTake1 (pTakeWhile1 isAsciiHex)
    pure ())) (fun s => s.foldl (fun a c => a * 16 + hexVal c) 0)
  let h4 : P Nat := pMap (pMapParser pTake1 (pTakeWhile1 isAsciiHex)) (fun s => s.foldl (fun a c => a * 16 + hexVal c) 0)
  pMap
    (pOr
      (do
        let _ ← pTag "rgb".data
        let _ ← pOpt (pTag "a".data)
        let _ ← pTag "(".data
        let r ← d8
        let _ ← stag ",".data
        let g ← d8
        let _ ← stag ",".data
        let b ← d8
        let a ← pOpt (pPreceded (stag ",".data) d8)
        let _ ← stag ")".data
        pure (r, g, b, a.getD 255))
      (pOr
        (do
          let _ ← pTag "#".data
          let r ← h8
          let g ← h8
          let b ← h8
          let a ← pOpt h8
          pure (r, g, b, a.getD 255))
        (do
          let _ ← pTag "#".data
          let r ← h4
          let g ← h4
          let b ← h4
          let a ← pOpt h4
          pure (17 * r, 17 * g, 17 * b, 17 * a.getD 15))))
    (fun (r, g, b, a) => Color32.mk r g b a)

/-- Source `length`: a numeric run followed by `%`, `px` or `em`, or the
bare `0`. -/
def cssLengthP : P CssLength :=
  let num : P ℚ := pMapParser (pIsA "-.0123456789".data) pFloat
  pOr (pMap (pTerminated num (pTag "%".data)) CssLength.percent)
    (pOr (pMap (pTerminated num (pTag "px".data)) CssLength.px)
      (pOr (pMap (pTerminated num (pTag "em".data)) CssLength.em)
        (pMap (pTag "0".data) (fun _ => CssLength.zero))))

/-- Source `CssLength::parse` (the whole value must be consumed). -/
def CssLength.parse (value : Str) : Option CssLength :=
  match cssLengthP value with
  | some ([], result) => some result
  | _ => none

/-- Source `font_shorthand`: leading keywords, a size length, an
optional `/line-height`, and a comma-separated family list. -/
def font_shorthand : P (List Str × CssLength × Option ℚ × List Str) := do
  let keywords ← pMany0 (css_big_token css_ident)
  let size ← css_big_token cssLengthP
  let lh ← pOpt (pPreceded (stag "/".data) (css_big_token pFloat))
  let family ← pSepList1 (stag ",".data) (pRecognize (pMany1 (css_big_token css_ident)))
  pure (keywords, size, lh, family)

/-- Source `CssColor::parse`: `currentcolor`, the CSS2 named colors plus
`transparent` and `rebeccapurple` (ASCII-case-insensitively), else
`color_numeric` on the full value.  The `orange` entry really has alpha
0 in the source (`0xffA50000`). -/
def CssColor.parse (value : Str) : Option CssColor :=
  if eqIgnoreCase value "currentcolor".data then some .currentColor
  else
    let named : List (Str × Color32) :=
      [("maroon".data, ⟨0x80, 0, 0, 0xff⟩), ("red".data, ⟨0xff, 0, 0, 0xff⟩),
       ("yellow".data, ⟨0xff, 0xff, 0, 0xff⟩), ("olive".data, ⟨0x80, 0x80, 0, 0xff⟩),
       ("purple".data, ⟨0x80, 0, 0x80, 0xff⟩), ("fuchsia".data, ⟨0xff, 0, 0xff, 0xff⟩),
       ("white".data, ⟨0xff, 0xff, 0xff, 0xff⟩), ("lime".data, ⟨0, 0xff, 0, 0xff⟩),
       ("green".data, ⟨0, 0x80, 0, 0xff⟩), ("navy".data, ⟨0, 0, 0x80, 0xff⟩),
       ("blue".data, ⟨0, 0, 0xff, 0xff⟩), ("aqua".data, ⟨0, 0xff, 0xff, 0xff⟩),
       ("teal".data, ⟨0, 0x80, 0x80, 0xff⟩), ("black".data, ⟨0, 0, 0, 0xff⟩),
       ("silver".data, ⟨0xc0, 0xc0, 0xc0, 0xff⟩), ("gray".data, ⟨0x80, 0x80, 0x80, 0xff⟩),
       ("orange".data, ⟨0xff, 0xA5, 0, 0⟩),
       ("transparent".data, ⟨0, 0, 0, 0⟩), ("rebeccapurple".data, ⟨0x66, 0x33, 0x99, 0xFF⟩)]
    match named.find? (fun e => eqIgnoreCase value e.1) with
    | some e => some (.other e.2)
    | none =>
      match color_numeric value with
      | some ([], c) => some (.other c)
      | _ => none

/-- Source `CssBorder::parse_shorthand`: whitespace-separated pieces;
`0` sets a zero width, `solid` is ignored, a length sets the width, a
color sets the color, anything else fails. -/
def CssBorder.parse_shorthand (value : Str) : Option CssBorder :=
  (splitAsciiWS value).foldlM
    (fun (b : CssBorder) piece =>
      if piece = "0".data then some { b with width := some .zero }
      else if piece = "solid".data then some b
      else
        match CssLength.parse piece with
        | some l => some { b with width := some l }
        | none =>
          match CssColor.parse piece with
          | some c => some { b with color := some c }
          | none => none)
    CssBorder.nne

/-- Source `CssFont::parse_shorthand`: normal/italic/bold keywords, the
size (returned separately for the caller to resolve), line-height and
family. -/
def CssFont.parse_shorthand (value : Str) : Option (CssFont × CssLength) :=
  match font_shorthand value with
  | some ([], (keywords, size, lh, family)) =>
    let base : CssFont := { CssFont.nne with style := some .normal, weight := some .normal }
    (keywords.foldlM
      (fun (f : CssFont) kw =>
        if kw = "normal".data then some f
        else if kw = "italic".data then some { f with style := some .italic }
        else if kw = "bold".data then some { f with weight := some .bold }
        else none)
      base).map
      (fun f => ({ f with line_height := lh, family := some family }, size))
  | _ => none

/-- Modelled from the spec: `CssWidth::parse` (used by the style crate,
not under src/): `auto` or a length. -/
def CssWidth.parse (value : Str) : Option CssWidth :=
  if value = "auto".data then some .auto
  else (CssLength.parse value).map .length

/-- Modelled from the spec: `CssHeight::parse` (used by the style crate,
not under src/): `auto` or a length. -/
def CssHeight.parse (value : Str) : Option CssHeight :=
  if value = "auto".data then some .auto
  else (CssLength.parse value).map .length

/-- Modelled from the spec: `css_declaration_list` (imported by the
style crate for inline `style` attributes but not under src/): the
declaration-list production of §4.4 — the same `;`-separated
`ident : value` list that `css_rule` uses between its braces, with a
value running to the next `;` or `}`. -/
def css_declaration_list : P DeclarationList :=
  pSepList0 (css_big_token (pTag ";".data))
    (pSepPair (css_big_token css_ident) (css_big_token (pTag ":".data)) cssDeclValue)

/-! ## Style resolver (src/style/src/lib.rs)

Selector matching walks parents and earlier siblings through weak
links in the source; here every node is matched through a zipper path:
the head entry is the node itself with its earlier siblings (nearest
first), the tail entries are its ancestors likewise.  Matching only
reads names and attributes, which style resolution never changes, so
the path holds the original nodes. -/

/-- A zipper path: (node, earlier siblings nearest first), innermost
first. -/
abbrev NPath := List (Node × List Node)

/-- Source `parse_css_file`: `css_file` never fails and always consumes
all input, so this always succeeds. -/
def parse_css_file (text : Str) : RuleList := css_file text

/-- Source `parse_style_attr` as used (`.ok()`): the declaration list,
or `none` on failure (trailing text is tolerated with a warning). -/
def parse_style_attr (text : Str) : Option DeclarationList :=
  match css_declaration_list text with
  | some (_, r) => some r
  | none => none

/-- Source `match_compound`: every simple selector must match — `*`
always; an identifier matches the node name ASCII-case-insensitively;
`.name` matches a whitespace-separated entry of `class`; `#id` matches
`id` exactly.  A simple that parses as none of these shapes is skipped
(treated as matching), as in the source's if-else chain. -/
def match_compound (n : Node) (compound : CompoundSelector) : Bool :=
  compound.all (fun simple =>
    if simple = "*".data then true
    else
      match css_ident simple with
      | some ([], sel) => eqIgnoreCase n.name sel
      | _ =>
        match simple with
        | '.' :: restSel =>
          (match css_ident restSel with
           | some ([], sel) =>
             !(match n.attr "class".data with
               | none => true
               | some cls => (splitAsciiWS cls).all (fun x => x ≠ sel))
           | _ => true)
        | _ =>
          match css_hash simple with
          | some ([], sel) =>
            let id := sel.drop 1
            !(match n.attr "id".data with
              | none => true
              | some v => v ≠ id)
          | _ => true)

/-- The ancestor paths of the head of a path, nearest first (the
source's `walk_up`, modelled from the spec: any ancestor for the
descendant combinator, the first for the child combinator). -/
def pathUps : NPath → List NPath
  | [] => []
  | _ :: rest =>
    match rest with
    | [] => []
    | _ => rest :: pathUps rest

/-- The earlier-sibling paths of the head of a path, nearest first (the
source's `walk_left`, modelled from the spec). -/
def pathLefts : NPath → List NPath
  | [] => []
  | (_, sibs) :: rest => go sibs rest
where
  /-- Paths of each earlier sibling with its own earlier siblings. -/
  go : List Node → NPath → List NPath
    | [], _ => []
    | s :: more, rest => ((s, more) :: rest) :: go more rest

/-- Source `match_complex`: match the rightmost compound against the
node, then walk each (compound, combinator) pair in list order from the
current anchor. -/
def match_complex (path : NPath) (cx : ComplexSelector) : Bool :=
  match path with
  | [] => false
  | (n, _) :: _ =>
    if !match_compound n cx.2 then false
    else go cx.1 path
where
  /-- The anchor-walking loop. -/
  go : List (CompoundSelector × Combinator) → NPath → Bool
    | [], _ => true
    | (compound, comb) :: rest, anchor =>
      let cands : List NPath :=
        match comb with
        | .descendant => pathUps anchor
        | .child => (pathUps anchor).take 1
        | .subsequentSibling => pathLefts anchor
        | .nextSibling => (pathLefts anchor).take 1
      match cands.find? (fun p =>
        match p with
        | (m, _) :: _ => match_compound m compound
        | [] => false) with
      | some next => go rest next
      | none => false

/-- Source `apply_declarations`: fold the declarations into the style.
When `property` is set only declarations of that name apply.  A value
that fails its parser leaves the style unchanged (the source logs and
falls through); an unknown property is skipped. -/
def apply_declarations (declarations : DeclarationList) (style : Style)
    (parent_style : Style) (property : Option Str) : Style :=
  declarations.foldl
    (fun style decl =>
      let name := decl.1
      let value := decl.2
      if (match property with | some p => decide (p ≠ name) | none => false) then style
      else if name = "display".data then
        { style with display := some value }
      else if name = "margin".data then
        match CssQuad.parse_shorthand value CssLength.parse with
        | some q => { style with margin := q }
        | none => style
      else if name = "margin-top".data then
        match CssLength.parse value with
        | some r => { style with margin := { style.margin with top := some r } }
        | none => style
      else if name = "margin-right".data then
        match CssLength.parse value with
        | some r => { style with margin := { style.margin with right := some r } }
        | none => style
      else if name = "margin-bottom".data then
        match CssLength.parse value with
        | some r => { style with margin := { style.margin with bottom := some r } }
        | none => style
      else if name = "margin-left".data then
        match CssLength.parse value with
        | some r => { style with margin := { style.margin with left := some r } }
        | none => style
      else if name = "padding".data then
        match CssQuad.parse_shorthand value CssLength.parse with
        | some q => { style with padding := q }
        | none => style
      else if name = "padding-top".data then
        match CssLength.parse value with
        | some r => { style with padding := { style.padding with top := some r } }
        | none => style
      else if name = "padding-right".data then
        match CssLength.parse value with
        | some r => { style with padding := { style.padding with right := some r } }
        | none => style
      else if name = "padding-bottom".data then
        match CssLength.parse value with
        | some r => { style with padding := { style.padding with bottom := some r } }
        | none => style
      else if name = "padding-left".data then
        match CssLength.parse value with
        | some r => { style with padding := { style.padding with left := some r } }
        | none => style
      else if name = "border".data then
        match CssBorder.parse_shorthand value with
        | some b => { style with border := CssQuad.one (some b) }
        | none => style
      else if name = "border-width".data then
        match CssQuad.parse_shorthand value CssLength.parse with
        | some q =>
          let base := style.border
          let setW := fun (side : Option CssBorder) (init : Option CssBorder) (w : CssLength) =>
            some { (side.getD (init.getD CssBorder.nne)) with width := some w }
          { style with border :=
            { top := setW base.top INITIAL_STYLE.border.top (q.top_unwrap .zero)
              right := setW base.right INITIAL_STYLE.border.right (q.right_unwrap .zero)
              bottom := setW base.bottom INITIAL_STYLE.border.bottom (q.bottom_unwrap .zero)
              left := setW base.left INITIAL_STYLE.border.left (q.left_unwrap .zero) } }
        | none => style
      else if name = "border-color".data then
        match CssQuad.parse_shorthand value CssColor.parse with
        | some q =>
          let base := style.border
          let setC := fun (side : Option CssBorder) (init : Option CssBorder) (c : CssColor) =>
            some { (side.getD (init.getD CssBorder.nne)) with color := some c }
          { style with border :=
            { top := setC base.top INITIAL_STYLE.border.top (q.top_unwrap .currentColor)
              right := setC base.right INITIAL_STYLE.border.right (q.right_unwrap .currentColor)
              bottom := setC base.bottom INITIAL_STYLE.border.bottom (q.bottom_unwrap .currentColor)
              left := setC base.left INITIAL_STYLE.border.left (q.left_unwrap .currentColor) } }
        | none => style
      else if name = "border-top".data then
        match CssBorder.parse_shorthand value with
        | some b => { style with border := { style.border with top := some b } }
        | none => style
      else if name = "border-right".data then
        match CssBorder.parse_shorthand value with
        | some b => { style with border := { style.border with right := some b } }
        | none => style
      else if name = "border-bottom".data then
        match CssBorder.parse_shorthand value with
        | some b => { style with border := { style.border with bottom := some b } }
        | none => style
      else if name = "border-left".data then
        match CssBorder.parse_shorthand value with
        | some b => { style with border := { style.border with left := some b } }
        | none => style
      else if name = "text-align".data then
        if eqIgnoreCase value "left".data then { style with text_align := some .left }
        else if eqIgnoreCase value "right".data then { style with text_align := some .right }
        else if eqIgnoreCase value "center".data then { style with text_align := some .center }
        else style
      else if name = "font".data then
        if value = "inherit".data then { style with font := parent_style.font }
        else
          match CssFont.parse_shorthand value with
          | some (property, size) =>
            { style with font := some { property with
                size := some (size.resolve parent_style.font_size parent_style.font_size) } }
          | none => style
      else if name = "font-size".data then
        let property := style.font.getD CssFont.nne
        { style with font := some { property with
            size := some (match CssLength.parse value with
              | some x => x.resolve parent_style.font_size parent_style.font_size
              | none => parent_style.font_size) } }
      else if name = "font-weight".data then
        let property := style.font.getD CssFont.nne
        let taken := { style with font := none }
        { style with font := some { property with
            weight := some (if value = "normal".data then .normal
              else if value = "bold".data then .bold
              else taken.font_weight) } }
      else if name = "font-style".data then
        let property := style.font.getD CssFont.nne
        let taken := { style with font := none }
        { style with font := some { property with
            style := some (if value = "normal".data then .normal
              else if value = "italic".data then .italic
              else taken.font_styleV) } }
      else if name = "width".data then
        match CssWidth.parse value with
        | some w => { style with width := some w }
        | none => style
      else if name = "height".data then
        match CssHeight.parse value with
        | some h => { style with height := some h }
        | none => style
      else if name = "background".data || name = "background-color".data then
        let value := if value = "none".data then "transparent".data else value
        match CssColor.parse value with
        | some c => { style with background_color := some c }
        | none => style
      else if name = "color".data then
        match CssColor.parse value with
        | some c => { style with color := some (c.resolve parent_style.colorV) }
        | none => style
      else style)
    style

/-- Source `apply`: every matching complex selector of every rule, in
source order, applies the rule's declarations. -/
def styleApply (path : NPath) (rules : RuleList) (style : Style)
    (parent_style : Style) (property : Option Str) : Style :=
  rules.foldl
    (fun style rule =>
      rule.1.foldl
        (fun style cx =>
          if match_complex path cx then
            apply_declarations rule.2 style parent_style property
          else style)
        style)
    style

/-- Errors of the style phase: the `unreachable!()` on a `Document`
descendant. -/
inductive StyleErr
  | panic
deriving DecidableEq, Repr

mutual

/-- One node of source `resolve_styles` (pre-order: a node's children
see its already-updated stored style).  `ups` is the zipper path of the
parent, `sibs` the node's earlier siblings (nearest first). -/
def resolveNode (rules : RuleList) (parentStyle : Style) (ups : NPath) (sibs : List Node) :
    Node → Except StyleErr Node
  | .mk d cs =>
    let path : NPath := (Node.mk d cs, sibs) :: ups
    match d with
    | .document => .error .panic
    | .comment v => do
      let cs2 ← resolveKids rules (NodeData.comment v).style path [] cs
      pure (.mk (.comment v) cs2)
    | .text v _ => do
      let newStyle := parentStyle.new_inherited
      let cs2 ← resolveKids rules newStyle path [] cs
      pure (.mk (.text v newStyle) cs2)
    | .element name attrs _ => do
      let n := Node.mk (.element name attrs Style.empty) cs
      let style0 := parentStyle.new_inherited
      let inline := (n.attr "style".data).bind parse_style_attr
      let s1 := styleApply path rules style0 parentStyle (some "font-size".data)
      let s2 := styleApply path rules s1 parentStyle (some "color".data)
      let s3 := match inline with
        | some ds => apply_declarations ds s2 parentStyle (some "font-size".data)
        | none => s2
      let s4 := match inline with
        | some ds => apply_declarations ds s3 parentStyle (some "color".data)
        | none => s3
      let s5 := styleApply path rules s4 parentStyle none
      let s6 := match inline with
        | some ds => apply_declarations ds s5 parentStyle none
        | none => s5
      let cs2 ← resolveKids rules s6 path [] cs
      pure (.mk (.element name attrs s6) cs2)

/-- The children loop of `resolve_styles`: `done` accumulates the
original earlier siblings nearest first. -/
def resolveKids (rules : RuleList) (parentStyle : Style) (parentPath : NPath)
    (done : List Node) : List Node → Except StyleErr (List Node)
  | [] => pure []
  | c :: rest => do
    let c2 ← resolveNode rules parentStyle parentPath done c
    let rest2 ← resolveKids rules parentStyle parentPath (c :: done) rest
    pure (c2 :: rest2)

end

/-- Source `resolve_styles`: every proper descendant of the root gets
its computed style (the root itself is not visited). -/
def resolve_styles (rules : RuleList) (dom : Node) : Except StyleErr Node := do
  let cs2 ← resolveKids rules dom.data.style [(dom, [])] [] dom.children
  pure (.mk dom.data cs2)

/-! ## HTTP data URLs (src/http/src/lib.rs lines 21-42) -/

/-- Outcomes of the `data:` branch of source `request`: not a data URL
(the regex does not match and the request proceeds to the network,
which is out of scope here), the `assert_eq!` panic on a `;base64`
flag, or the `char_indices().nth(1).unwrap()` panic in the
percent-decoding loop. -/
inductive DataErr
  | notData
  | base64Panic
  | nthPanic
deriving DecidableEq, Repr

/-- The percent-decoding loop of source `request`, fuelled by the input
length: a `%HH` escape consumes three characters and pushes the byte;
otherwise the loop asks for the index of the second remaining character
— a panic (`none`) when exactly one character remains — and pushes the
UTF-8 octets of the first. -/
def percentGo : Nat → Str → List Nat → Option (List Nat)
  | _, [], acc => some acc
  | 0, _, _ => none
  | fuel + 1, c :: rest, acc =>
    if c = '%' && (match rest with
                   | h1 :: h2 :: _ => isAsciiHex h1 && isAsciiHex h2
                   | _ => false) then
      percentGo fuel (rest.drop 2)
        (acc ++ [16 * hexVal (rest.headD '0') + hexVal ((rest.drop 1).headD '0')])
    else
      match rest with
      | [] => none
      | _ => percentGo fuel rest (acc ++ charUtf8 c)

/-- The `data:` branch of source `request` (the regex
`data:([^;,]+)((?:;base64)?),(.*)` anchored at the start): on a match
with an empty base64 group, percent-decode the body and return status
200 with no headers. -/
def request_data (url : Str) : Except DataErr (Nat × List (Str × Str) × List Nat) :=
  if "data:".data.isPrefixOf url then
    let after := url.drop 5
    let mediatype := after.takeWhile (fun c => c ≠ ';' && c ≠ ',')
    if mediatype = [] then .error .notData
    else
      let rest := after.drop mediatype.length
      if ";base64,".data.isPrefixOf rest then .error .base64Panic
      else
        match rest with
        | ',' :: body =>
          match percentGo (body.length + 1) body [] with
          | some bytes => .ok (200, [], bytes)
          | none => .error .nthPanic
        | _ => .error .notData
  else .error .notData

/-! ## Layout engine (src/layout/src/lib.rs)

Rectangles are rationals; egui `Rect::NAN` (the placeholder a box is
created with, always overwritten before it is read on the modelled
paths) is the zero rectangle here.  Font metrics come from an oracle
(the `FONTS` table and ab_glyph are external); Unicode word splitting
(`split_word_bounds` of the unicode-segmentation crate) is an oracle
too. -/

/-- egui `Rect`. -/
structure Rect where
  minx : ℚ
  miny : ℚ
  maxx : ℚ
  maxy : ℚ
deriving DecidableEq, Repr

/-- Rect width. -/
def Rect.width (r : Rect) : ℚ := r.maxx - r.minx

/-- egui `Rect::set_top`. -/
def Rect.setTop (r : Rect) (v : ℚ) : Rect := { r with miny := v }

/-- egui `Rect::set_bottom`. -/
def Rect.setBottom (r : Rect) (v : ℚ) : Rect := { r with maxy := v }

/-- egui `Rect::set_left`. -/
def Rect.setLeft (r : Rect) (v : ℚ) : Rect := { r with minx := v }

/-- egui `Rect::set_right`. -/
def Rect.setRight (r : Rect) (v : ℚ) : Rect := { r with maxx := v }

/-- egui `Rect::set_width` (moves the right edge). -/
def Rect.setWidth (r : Rect) (w : ℚ) : Rect := { r with maxx := r.minx + w }

/-- egui `Rect::set_height` (moves the bottom edge). -/
def Rect.setHeight (r : Rect) (h : ℚ) : Rect := { r with maxy := r.miny + h }

/-- egui `Rect::from_min_size`. -/
def Rect.fromMinSize (x y w h : ℚ) : Rect := ⟨x, y, x + w, y + h⟩

/-- egui `Rect::from_x_y_ranges`. -/
def Rect.fromRanges (x1 x2 y1 y2 : ℚ) : Rect := ⟨x1, y1, x2, y2⟩

/-- egui `Rect::translate`. -/
def Rect.translate (r : Rect) (dx dy : ℚ) : Rect :=
  ⟨r.minx + dx, r.miny + dy, r.maxx + dx, r.maxy + dy⟩

/-- The `Rect::NAN` creation placeholder. -/
def Rect.nanR : Rect := ⟨0, 0, 0, 0⟩

/-- Source `ViewportInfo` (src/layout/src/viewport.rs). -/
structure ViewportInfo where
  rect : Rect
  scale : ℚ
deriving DecidableEq, Repr

/-- Source `FontInfo`, reduced to what the layout engine reads: the
egui font size and the ab_glyph ascent, height and per-glyph horizontal
advance (`h_advance ∘ glyph_id`) in device pixels. -/
structure FontI where
  sizeE : ℚ
  ascent : ℚ
  height : ℚ
  hAdv : Char → ℚ

/-- The font collaborator: `FONTS[(weight, style)]` and
`FontInfo::new(family, data, size, scale)` combined, with its
`eyre::Result`. -/
abbrev FontOracle := CssFontWeight → CssFontStyle → ℚ → ℚ → Except Str FontI

/-- The unicode-segmentation collaborator (`split_word_bounds`). -/
abbrev SplitWords := Str → List Str

/-- Source `Paint` (src/layout/src/paint.rs). -/
inductive Paint
  | ptext (r : Rect) (c : Color32) (f : FontI) (s : Str)
  | fill (r : Rect) (c : Color32)

/-- Source `Paint::rect`. -/
def Paint.rect : Paint → Rect
  | .ptext r _ _ _ => r
  | .fill r _ => r

/-- Source `OwnedLayout` (the weak `parent`/`previous` links are
recovered from the traversal). -/
structure OwnedLayout where
  node : Option Node
  inlines : List Node
  children : List OwnedLayout
  display_list : List Paint
  rect : Rect
  margin : CssQuad ℚ
  border : CssQuad ℚ
  padding : CssQuad ℚ
  text_align : CssTextAlign

/-- Source `Layout::anonymous`: no node, the given inline run, zero
edges, the creator's text-align. -/
def Layout.anonymous (self : OwnedLayout) (nodes : List Node) : OwnedLayout :=
  { node := none, inlines := nodes, children := [], display_list := [], rect := Rect.nanR,
    margin := CssQuad.one (some 0), border := CssQuad.one (some 0),
    padding := CssQuad.one (some 0), text_align := self.text_align }

/-- Source `Layout::with_node`: edges resolved now against the
available width and the node's font size (percent border widths
resolve to an unset side, a later unwrap panic). -/
def Layout.with_node (node : Node) (available : ℚ) : OwnedLayout :=
  let style := node.style
  let font_size := style.font_size
  { node := some node, inlines := [], children := [], display_list := [], rect := Rect.nanR,
    margin := style.margin.map_or INITIAL_STYLE.margin (fun x => some (x.resolve available font_size)),
    border := style.border_width.map_or (INITIAL_STYLE.border.map (·.width))
      (fun x => x.resolve_no_percent font_size),
    padding := style.padding.map_or INITIAL_STYLE.padding (fun x => some (x.resolve available font_size)),
    text_align := style.text_alignV }

/-- Source `Layout::is_skippable`. -/
def is_skippable (node : Node) : Bool :=
  node.style.displayV = CssDisplay.dnone

/-- Whether a payload is text or a comment (those are never
block-level). -/
def NodeData.isTextOrComment : NodeData → Bool
  | .text .. => true
  | .comment _ => true
  | _ => false

/-- Whether a payload's display is block-ish. -/
def NodeData.blockyDisplay (d : NodeData) : Bool :=
  match d.style.displayV with
  | .dnone => false
  | .inline => false
  | .block => true
  | .inlineBlock => true
  | .listItem => true

mutual

/-- Source `Layout::is_block_level`: text and comments never; otherwise
a block-ish display or any block-level descendant. -/
def is_block_level : Node → Bool
  | .mk d cs =>
    if d.isTextOrComment then false
    else d.blockyDisplay || anyBlock cs

/-- `is_block_level` over a forest. -/
def anyBlock : List Node → Bool
  | [] => false
  | c :: rest => is_block_level c || anyBlock rest

end

/-- Layout failures: a font-oracle error, an `html_word` failure, a
panic (unwraps, asserts, unreachables), or exhausted fuel. -/
inductive LayoutErr
  | fontErr (msg : Str)
  | wordErr
  | panic
  | fuel
deriving DecidableEq, Repr

/-- Source `InlineContext`. -/
structure InlineContext where
  content_rect : Rect
  cursorx : ℚ
  cursory : ℚ
  max_ascent : ℚ
  max_height : ℚ
  line_display_list : List Paint

/-- Source `Layout::flush`: translate the line's text paints for
vertical alignment, then for `text-align`, push them onto the display
list, and reset the cursor and line metrics.  A non-text paint in the
line is the source's `unreachable!()`. -/
def layFlush (selfRect : Rect) (ta : CssTextAlign) (scale : ℚ) (dl : List Paint)
    (ic : InlineContext) : Except LayoutErr (List Paint × InlineContext) := do
  let line1 ← ic.line_display_list.mapM (fun p =>
    match p with
    | .ptext r c f s => Except.ok (Paint.ptext (r.translate 0 (ic.max_ascent - f.ascent / scale)) c f s)
    | .fill _ _ => Except.error .panic)
  let available := selfRect.width
  let width := line1.foldl (fun w p => max w p.rect.maxx) 0
  let offset : ℚ :=
    match ta with
    | .left => 0
    | .right => available - width
    | .center => (available - width) / 2
  let line2 ← line1.mapM (fun p =>
    match p with
    | .ptext r c f s => Except.ok (Paint.ptext (r.translate offset 0) c f s)
    | .fill _ _ => Except.error .panic)
  pure (dl ++ line2,
    { ic with
      cursorx := ic.content_rect.minx
      cursory := ic.cursory + ic.max_height
      max_ascent := 0
      max_height := 0
      line_display_list := [] })

/-- The per-word body of source `Layout::text`: measure the word, flush
the line when it overflows the box right edge, track line metrics, and
append the text paint. -/
def layWord (selfRect : Rect) (ta : CssTextAlign) (scale : ℚ) (style : Style) (font : FontI)
    (word : Str) (dl : List Paint) (ic : InlineContext) :
    Except LayoutErr (List Paint × InlineContext) := do
  let font_size := style.font_size
  let advance := (word.foldl (fun a c => a + font.hAdv c) 0) / scale
  let ascent := font.ascent / scale
  let height := font.height / scale
  let line_height := style.line_height_or height
  let half_leading := line_height - font_size
  let (dl, ic) ←
    if ic.cursorx + advance > selfRect.maxx then
      layFlush selfRect ta scale dl ic
    else
      pure (dl, ic)
  let ic := { ic with
    max_ascent := max ic.max_ascent (ascent + half_leading),
    max_height := max ic.max_height line_height }
  let rect := Rect.fromMinSize ic.cursorx ic.cursory advance height
  let ic := { ic with
    line_display_list := ic.line_display_list ++ [Paint.ptext rect style.colorV font word],
    cursorx := ic.cursorx + advance }
  pure (dl, ic)

/-- The word-sequence fold of source `Layout::text`. -/
def layWords (selfRect : Rect) (ta : CssTextAlign) (scale : ℚ) (style : Style) (font : FontI) :
    List Str → List Paint → InlineContext → Except LayoutErr (List Paint × InlineContext)
  | [], dl, ic => pure (dl, ic)
  | w :: ws, dl, ic => do
    let (dl, ic) ← layWord selfRect ta scale style font w dl ic
    layWords selfRect ta scale style font ws dl ic

/-- The tokenization loop of source `Layout::text`, fuelled by the text
length: whitespace runs collapse to a single space, then each Unicode
word is laid. -/
def layTextGo (swb : SplitWords) (selfRect : Rect) (ta : CssTextAlign) (scale : ℚ)
    (style : Style) (font : FontI) :
    Nat → Str → List Paint → InlineContext → Except LayoutErr (List Paint × InlineContext)
  | _, [], dl, ic => pure (dl, ic)
  | 0, _, _, _ => .error .fuel
  | fuel + 1, input, dl, ic =>
    match html_word input with
    | none => .error .wordErr
    | some (rest, token) => do
      let text : Str :=
        match token with
        | .space _ => " ".data
        | .other x => x
      let (dl, ic) ← layWords selfRect ta scale style font (swb text) dl ic
      if rest.length < input.length then
        layTextGo swb selfRect ta scale style font fuel rest dl ic
      else
        .error .fuel

/-- Source `Layout::text`: assert the node is text, resolve the font
through the oracle, and lay out its words. -/
def layText (fonts : FontOracle) (swb : SplitWords) (vp : ViewportInfo) (selfRect : Rect)
    (ta : CssTextAlign) (node : Node) (dl : List Paint) (ic : InlineContext) :
    Except LayoutErr (List Paint × InlineContext) := do
  if node.type ≠ NodeType.text then .error .panic
  else do
    let style := node.style
    let font ← match fonts style.font_weight style.font_styleV style.font_size vp.scale with
      | .ok f => Except.ok f
      | .error m => Except.error (.fontErr m)
    let value := node.value.getD []
    layTextGo swb selfRect ta vp.scale style font (value.length + 1) value dl ic

mutual

/-- Source `Layout::recurse`: elements recurse into children, text lays
out, comments do nothing, a document is `unreachable!()`. -/
def layRecurse (fonts : FontOracle) (swb : SplitWords) (vp : ViewportInfo) (selfRect : Rect)
    (ta : CssTextAlign) : Node → List Paint → InlineContext →
    Except LayoutErr (List Paint × InlineContext)
  | .mk d cs, dl, ic =>
    match d with
    | .document => .error .panic
    | .element .. => layRecurseList fonts swb vp selfRect ta cs dl ic
    | .text v st => layText fonts swb vp selfRect ta (.mk (.text v st) cs) dl ic
    | .comment _ => pure (dl, ic)

/-- `Layout::recurse` over the children of an element. -/
def layRecurseList (fonts : FontOracle) (swb : SplitWords) (vp : ViewportInfo) (selfRect : Rect)
    (ta : CssTextAlign) : List Node → List Paint → InlineContext →
    Except LayoutErr (List Paint × InlineContext)
  | [], dl, ic => pure (dl, ic)
  | c :: rest, dl, ic => do
    let (dl, ic) ← layRecurse fonts swb vp selfRect ta c dl ic
    layRecurseList fonts swb vp selfRect ta rest dl ic

end

/-- The margin/border/padding rectangle peeling at the top of source
`Layout::f` (boxes with a node peel their resolved edges; anonymous
boxes use their rect four times).  An unset border side (a percent
width) is the source's `top_unwrap()` panic. -/
def computeRects (lb : OwnedLayout) : Option (Rect × Rect × Rect × Rect) :=
  match lb.node with
  | some _ => do
    let mt ← lb.margin.top
    let mr ← lb.margin.right
    let mb2 ← lb.margin.left
    let bt ← lb.border.top
    let br ← lb.border.right
    let bl ← lb.border.left
    let pt ← lb.padding.top
    let pr ← lb.padding.right
    let pl ← lb.padding.left
    let rect := lb.rect
    let margin_rect := rect
    let rect := ((rect.setTop (rect.miny + mt)).setLeft (rect.minx + mb2)).setRight (rect.maxx - mr)
    let border_rect := rect
    let rect := ((rect.setTop (rect.miny + bt)).setLeft (rect.minx + bl)).setRight (rect.maxx - br)
    let padding_rect := rect
    let rect := ((rect.setTop (rect.miny + pt)).setLeft (rect.minx + pl)).setRight (rect.maxx - pr)
    let content_rect := rect
    pure (margin_rect, padding_rect, border_rect, content_rect)
  | none =>
    let rect := lb.rect
    pure (rect, rect, rect, rect)

/-- The box-generation loop of source `Layout::f`: walk the children
left to right, buffering non-skippable inline-level children; a
block-level child first wraps any buffered inlines in an anonymous box,
then gets its own box sized against this box's rect width. -/
def genLoop (self : OwnedLayout) : List Node → List OwnedLayout → List Node →
    List OwnedLayout × List Node
  | [], boxes, inls => (boxes, inls)
  | child :: rest, boxes, inls =>
    if is_block_level child then
      let boxes := if !inls.isEmpty then boxes ++ [Layout.anonymous self inls] else boxes
      genLoop self rest (boxes ++ [Layout.with_node child self.rect.width]) []
    else if !is_skippable child then
      genLoop self rest boxes (inls ++ [child])
    else
      genLoop self rest boxes inls

/-- The invariant assertion of source `Layout::f`: only boxes inside,
only inlines inside, or neither. -/
def boxesInv (boxes : List OwnedLayout) (inls : List Node) : Bool :=
  (!boxes.isEmpty && inls.isEmpty) || (!inls.isEmpty && boxes.isEmpty)
    || (boxes.isEmpty && inls.isEmpty)

/-- The rect a child box is given before its recursive layout in
source `Layout::f`: below the previous sibling, width-resolved for
node-owning boxes, zero height. -/
def layChildRect (prev : Option OwnedLayout) (content_rect : Rect) (box : OwnedLayout) : Rect :=
  let rect0 := content_rect
  let rect1 := match prev with
    | some p => rect0.setTop p.rect.maxy
    | none => rect0
  let rect2 := match box.node with
    | some node => rect1.setWidth (node.style.box_width rect1.width)
    | none => rect1
  rect2.setHeight 0

/-- The block-flow child loop of source `Layout::f`: each box is
appended, positioned below its previous sibling through
`layChildRect`, laid out recursively (through `recur`, the next level
of `layF`), and the content rectangle's bottom follows it.  On an
error the children appended so far stay, as the source's shared-tree
mutations do. -/
def layChildren (recur : OwnedLayout → List Paint → OwnedLayout × List Paint × Option LayoutErr)
    (lb : OwnedLayout) (prev : Option OwnedLayout) (content_rect : Rect) :
    List OwnedLayout → List Paint → OwnedLayout × Rect × List Paint × Option LayoutErr
  | [], dl => (lb, content_rect, dl, none)
  | box :: rest, dl =>
    match recur { box with rect := layChildRect prev content_rect box } dl with
    | (box2, dl2, some e) =>
      ({ lb with children := lb.children ++ [box2] }, content_rect, dl2, some e)
    | (box2, dl2, none) =>
      layChildren recur { lb with children := lb.children ++ [box2] } (some box2)
        (content_rect.setBottom box2.rect.maxy) rest dl2

/-- The inline-merge step of source `Layout::f`: buffered inline-level
children left over at the end of the walk are wrapped in a trailing
anonymous box when block boxes exist, and otherwise become this box's
own inlines. -/
def layMerge (lb : OwnedLayout) (boxes0 : List OwnedLayout) (inls : List Node) :
    List OwnedLayout × OwnedLayout :=
  if !inls.isEmpty then
    if !boxes0.isEmpty then (boxes0 ++ [Layout.anonymous lb inls], lb)
    else (boxes0, { lb with inlines := lb.inlines ++ inls })
  else (boxes0, lb)

/-- The middle of source `Layout::f`: lay out the child boxes (block
flow) or this box's inline run (text flow), or do nothing. -/
def layStep1 (fonts : FontOracle) (swb : SplitWords) (vp : ViewportInfo)
    (recur : OwnedLayout → List Paint → OwnedLayout × List Paint × Option LayoutErr)
    (lb : OwnedLayout) (content_rect : Rect) (boxes : List OwnedLayout) (dl : List Paint) :
    OwnedLayout × Rect × List Paint × Option LayoutErr :=
  if !boxes.isEmpty then
    layChildren recur lb none content_rect boxes dl
  else if !lb.inlines.isEmpty then
    let ic : InlineContext :=
      { content_rect := content_rect, cursorx := content_rect.minx,
        cursory := content_rect.miny, max_ascent := 0, max_height := 0,
        line_display_list := [] }
    match layRecurseList fonts swb vp lb.rect lb.text_align lb.inlines dl ic with
    | .error e => (lb, content_rect, dl, some e)
    | .ok (dl2, ic2) =>
      match layFlush lb.rect lb.text_align vp.scale dl2 ic2 with
      | .error e => (lb, content_rect, dl2, some e)
      | .ok (dl3, ic3) => (lb, content_rect.setBottom ic3.cursory, dl3, none)
  else
    (lb, content_rect, dl, none)

/-- The tail of source `Layout::f`: the `height` override, the bottom
edges, the rect's new bottom, and the five background/border fills
inserted at index `i` of the display list. -/
def layFinish (i : Nat) (margin_rect padding_rect border_rect : Rect)
    (lb : OwnedLayout) (content_rect : Rect) (dl : List Paint) :
    OwnedLayout × List Paint × Option LayoutErr :=
  let content_rect :=
    match lb.node with
    | some node =>
      match node.style.box_height with
      | some h => content_rect.setBottom (content_rect.miny + h)
      | none => content_rect
    | none => content_rect
  match lb.padding.bottom, lb.border.bottom, lb.margin.bottom with
  | some pb, some bb, some mb =>
    let padding_rect := padding_rect.setBottom (content_rect.maxy + pb)
    let border_rect := border_rect.setBottom (padding_rect.maxy + bb)
    let margin_rect := margin_rect.setBottom (border_rect.maxy + mb)
    let lb := { lb with rect := lb.rect.setBottom margin_rect.maxy }
    match lb.node with
    | some node =>
      let style := node.style
      let current_color := style.colorV
      let border_top_rect := Rect.fromRanges border_rect.minx border_rect.maxx
        border_rect.miny padding_rect.miny
      let border_bottom_rect := Rect.fromRanges border_rect.minx border_rect.maxx
        padding_rect.maxy border_rect.maxy
      let border_left_rect := Rect.fromRanges border_rect.minx padding_rect.minx
        border_rect.miny border_rect.maxy
      let border_right_rect := Rect.fromRanges padding_rect.maxx border_rect.maxx
        border_rect.miny border_rect.maxy
      let inserted : List Paint :=
        [Paint.fill border_left_rect (style.border_left_color.resolve current_color),
         Paint.fill border_bottom_rect (style.border_bottom_color.resolve current_color),
         Paint.fill border_right_rect (style.border_right_color.resolve current_color),
         Paint.fill border_top_rect (style.border_top_color.resolve current_color),
         Paint.fill padding_rect (style.background_colorV.resolve current_color)]
      (lb, dl.take i ++ inserted ++ dl.drop i, none)
    | none => (lb, dl, none)
  | _, _, _ => (lb, dl, some .panic)

/-- Source `Layout::f` fuelled by tree depth.  `layF` takes the box
(rect already positioned by the caller) and the document display list,
and returns the updated box, the display list, and a possible error
(with the state reached so far, as the source's mutations persist past
an `Err` return). -/
def layF (fonts : FontOracle) (swb : SplitWords) (vp : ViewportInfo) :
    Nat → OwnedLayout → List Paint → OwnedLayout × List Paint × Option LayoutErr
  | 0, lb, dl => (lb, dl, some .fuel)
  | fuel + 1, lb, dl =>
    let i := dl.length
    match computeRects lb with
    | none => (lb, dl, some .panic)
    | some (margin_rect, padding_rect, border_rect, content_rect) =>
      let candidates := match lb.node with | some n => n.children | none => []
      let bi := genLoop lb candidates [] []
      let merged := layMerge lb bi.1 bi.2
      let boxes := merged.1
      let lb1 := merged.2
      if !boxesInv boxes lb1.inlines then (lb1, dl, some .panic)
      else
        match layStep1 fonts swb vp (layF fonts swb vp fuel) lb1 content_rect boxes dl with
        | (lb2, _, dl2, some e) => (lb2, dl2, some e)
        | (lb2, content_rect2, dl2, none) =>
          layFinish i margin_rect padding_rect border_rect lb2 content_rect2 dl2

/-- Size of a node tree (bounds the box-tree depth for the layout
fuel). -/
def nodeSize : Node → Nat
  | .mk _ cs => 1 + nodeListSize cs
where
  /-- Sum of subtree sizes. -/
  nodeListSize : List Node → Nat
    | [] => 0
    | c :: rest => nodeSize c + nodeListSize rest

/-- Source `Layout::layout`: assert the root holds the document with no
inlines, position its rect at the viewport with zero height, run `f`,
and only on success expose the accumulated display list on the root. -/
def Layout.layout (fonts : FontOracle) (swb : SplitWords) (lb : OwnedLayout)
    (vp : ViewportInfo) : OwnedLayout × Option LayoutErr :=
  if lb.inlines.length ≠ 0 then (lb, some .panic)
  else
    match lb.node with
    | none => (lb, some .panic)
    | some n =>
      if n.type ≠ NodeType.document then (lb, some .panic)
      else
        let lb1 := { lb with rect := Rect.fromMinSize vp.rect.minx vp.rect.miny vp.rect.width 0 }
        match layF fonts swb vp (nodeSize n + 1) lb1 [] with
        | (lb2, _, some e) => (lb2, some e)
        | (lb2, dl, none) => ({ lb2 with display_list := dl }, none)

/-! ## Pipeline driver (src/browser/src/document.rs)

The claims describe the workspace driver (with the `Styled` phase);
src/src/document.rs is an older copy without it.  The external HTTP
collaborator (`wbe_http::request`), the font collaborator, the word
segmenter, and the embedded user-agent stylesheet asset `html.css`
(not under src/) are carried in an `Ext` record. -/

/-- The external collaborators of the driver: the HTTP request function
(url, optional base → status, headers, body bytes, or an error whose
display string feeds the synthesized error page), the font oracle, the
word splitter, and the `html.css` text embedded in the binary. -/
structure Ext where
  net : Str → Option Str → Except Str (Nat × List (Str × Str) × List Nat)
  fonts : FontOracle
  swb : SplitWords
  uaCss : Str

/-- Errors `tick` can return: a non-UTF-8 body, a parse failure, a
style-phase panic, or a layout failure. -/
inductive TickErr
  | utf8Err
  | parseErr (e : ParseErr)
  | styleErr (e : StyleErr)
  | layoutErr (e : LayoutErr)
deriving DecidableEq, Repr

/-- Source `OwnedDocument`. -/
inductive OwnedDocument
  | none
  | navigated (location : Str)
  | loaded (location : Str) (response_body : Str)
  | parsed (location : Str) (response_body : Str) (dom : Node)
  | styled (location : Str) (response_body : Str) (dom : Node)
  | laidOut (location : Str) (response_body : Str) (dom : Node) (layout : OwnedLayout)
      (viewport : ViewportInfo)

/-- Source `OwnedDocument::invalidate_layout`: `LaidOut` drops back to
`Styled` keeping location, body and dom; every other state is
returned as is. -/
def OwnedDocument.invalidate_layout : OwnedDocument → OwnedDocument
  | .laidOut location response_body dom _ _ => .styled location response_body dom
  | other => other

/-- Source `OwnedDocument::status`. -/
def OwnedDocument.status : OwnedDocument → Str
  | .none => "None".data
  | .navigated .. => "Navigated".data
  | .loaded .. => "Loaded".data
  | .parsed .. => "Parsed".data
  | .styled .. => "Styled".data
  | .laidOut .. => "LaidOut".data

/-- The location a state carries, if any. -/
def OwnedDocument.locQ : OwnedDocument → Option Str
  | .none => Option.none
  | .navigated l => some l
  | .loaded l _ => some l
  | .parsed l _ _ => some l
  | .styled l _ _ => some l
  | .laidOut l _ _ _ _ => some l

/-- The response body a state carries, if any. -/
def OwnedDocument.bodyQ : OwnedDocument → Option Str
  | .loaded _ b => some b
  | .parsed _ b _ => some b
  | .styled _ b _ => some b
  | .laidOut _ b _ _ _ => some b
  | _ => Option.none

/-- The DOM a state carries, if any. -/
def OwnedDocument.domQ : OwnedDocument → Option Node
  | .parsed _ _ d => some d
  | .styled _ _ d => some d
  | .laidOut _ _ d _ _ => some d
  | _ => Option.none

/-- The viewport a `LaidOut` state carries. -/
def OwnedDocument.vpQ : OwnedDocument → Option ViewportInfo
  | .laidOut _ _ _ _ v => some v
  | _ => Option.none

/-- Source `OwnedDocument::load`: request the location; a non-2xx
status synthesizes `<h1>[http N]</h1>`, a transport error synthesizes
`<h1>[network error]</h1>` followed by the error display; the body must
be UTF-8. -/
def docLoad (ext : Ext) (location : Str) : Except TickErr OwnedDocument :=
  let body : List Nat :=
    match ext.net location Option.none with
    | .ok (200, _, body) => body
    | .ok (204, _, body) => body
    | .ok (status, _, _) => strUtf8 ("<h1>[http ".data ++ natStr status ++ "]</h1>".data)
    | .error e => strUtf8 ("<h1>[network error]</h1>".data ++ e)
  match utf8Dec body with
  | some s => .ok (.loaded location s)
  | Option.none => .error .utf8Err

/-- Source `OwnedDocument::parse`: parse the body into a DOM. -/
def docParse (location response_body : Str) : Except TickErr OwnedDocument :=
  match parse_html response_body with
  | .ok dom => .ok (.parsed location response_body dom)
  | .error e => .error (.parseErr e)

/-- The `request_link` helper inside source `OwnedDocument::style`:
only a 200 UTF-8 body is a success; everything else is an error the
caller logs and skips. -/
def request_link (ext : Ext) (href base : Str) : Except Str Str :=
  match ext.net href (some base) with
  | .ok (200, _, body) =>
    (match utf8Dec body with
     | some t => .ok t
     | Option.none => .error "invalid utf-8".data)
  | .ok (status, _, _) => .error ("http ".data ++ natStr status ++ ": ".data ++ href)
  | .error e => .error e

/-- The `<link rel=stylesheet>` filter of source
`OwnedDocument::style`. -/
def isStylesheetLink (x : Node) : Bool :=
  x.name = "link".data
    && (match x.attr "rel".data with
        | some rel =>
          ((splitAsciiWS rel).filter (fun w => eqIgnoreCase w "stylesheet".data)).length > 0
        | Option.none => false)

/-- Source `OwnedDocument::style`: gather the user-agent sheet, then
each external stylesheet (failures logged and skipped), then each
internal `<style>` body, in document order; resolve the styles over the
DOM (an in-place mutation in the source, the styled copy here). -/
def docStyle (ext : Ext) (location response_body : Str) (dom : Node) :
    Except TickErr OwnedDocument :=
  let rules0 := parse_css_file ext.uaCss
  let rules1 := (dom.descendants.filter isStylesheetLink).foldl
    (fun rules node =>
      match node.attr "href".data with
      | some href =>
        (match request_link ext href location with
         | .ok text => rules ++ parse_css_file text
         | .error _ => rules)
      | Option.none => rules)
    rules0
  let rules2 := (dom.descendants.filter (fun x => x.name = "style".data)).foldl
    (fun rules node => rules ++ parse_css_file node.text_content)
    rules1
  match resolve_styles rules2 dom with
  | .ok dom2 => .ok (.styled location response_body dom2)
  | .error e => .error (.styleErr e)

/-- Source `OwnedDocument::layout`: build the root box over the DOM at
the viewport width and lay it out. -/
def docLayout (ext : Ext) (vp : ViewportInfo) (location response_body : Str) (dom : Node) :
    Except TickErr OwnedDocument :=
  let lay := Layout.with_node dom vp.rect.width
  match Layout.layout ext.fonts ext.swb lay vp with
  | (_, some e) => .error (.layoutErr e)
  | (lay2, Option.none) => .ok (.laidOut location response_body dom lay2 vp)

/-- Source `OwnedDocument::tick`: advance exactly one phase (`None` and
`LaidOut` return unchanged). -/
def tick (ext : Ext) (self : OwnedDocument) (viewport : ViewportInfo) :
    Except TickErr OwnedDocument :=
  match self with
  | .none => .ok self
  | .navigated location => docLoad ext location
  | .loaded location response_body => docParse location response_body
  | .parsed location response_body dom => docStyle ext location response_body dom
  | .styled location response_body dom => docLayout ext viewport location response_body dom
  | .laidOut .. => .ok self

/-! ## Claim C3: the cascade scenario -/

/-- The C3 stylesheet text. -/
def c3Stylesheet : Str := "p a \x7b color: red \x7d a \x7b color: blue \x7d".data

/-- The C3 document markup. -/
def c3DocSrc : Str := "<html><body><p><a id=x>t</a></p></body></html>".data

/-- The computed color of the `a` element after the style phase on the
C3 inputs: parse the document, resolve against the parsed stylesheet,
and read the computed `color` of the `a` element. -/
def c3ComputedColor : Option Color32 :=
  match parse_html c3DocSrc with
  | .error _ => Option.none
  | .ok dom =>
    match resolve_styles (parse_css_file c3Stylesheet) dom with
    | .error _ => Option.none
    | .ok styled =>
      (styled.descendants.find? (fun d => d.name = "a".data)).map (fun n => n.style.colorV)

/-- What the stylesheet actually parses to: the `p a` rule is dropped
(the complex-selector parser stops at its first compound, so the rule
fails and error recovery skips it) and the surviving declaration value
keeps a trailing space. -/
def c3RulesLit : RuleList := [([([], ["a".data])], [("color".data, "blue ".data)])]

/-- The style every node of the C3 document computes: inherit from an
empty parent style (no declaration ever applies). -/
def c3I0 : Style := Style.empty.new_inherited

/-- The C3 DOM, bottom up: the text node. -/
def c3nT : Node := .mk (.text "t".data Style.empty) []

/-- The `a` element. -/
def c3nA : Node := .mk (.element "a".data [("id".data, "x".data)] Style.empty) [c3nT]

/-- The `p` element. -/
def c3nP : Node := .mk (.element "p".data [] Style.empty) [c3nA]

/-- The `body` element. -/
def c3nB : Node := .mk (.element "body".data [] Style.empty) [c3nP]

/-- The `html` element. -/
def c3nH : Node := .mk (.element "html".data [] Style.empty) [c3nB]

/-- The parsed C3 document. -/
def c3DomLit : Node := .mk .document [c3nH]

/-- The styled text node. -/
def c3sT : Node := .mk (.text "t".data c3I0) []

/-- The styled `a` element. -/
def c3sA : Node := .mk (.element "a".data [("id".data, "x".data)] c3I0) [c3sT]

/-- The styled `p` element. -/
def c3sP : Node := .mk (.element "p".data [] c3I0) [c3sA]

/-- The styled `body` element. -/
def c3sB : Node := .mk (.element "body".data [] c3I0) [c3sP]

/-- The styled `html` element. -/
def c3sH : Node := .mk (.element "html".data [] c3I0) [c3sB]

/-- The styled C3 document. -/
def c3StyledLit : Node := .mk .document [c3sH]

/-! ## Claim C4: text tokenization of entities -/

/-- The lexer loop of the driver, fuelled by the input length: collect
`html_token`s until the input is exhausted (each success consumes, see
the C10 theorem; the guard mirrors the fuel argument). -/
def htmlTokensGo : Nat → Str → List HtmlToken → Option (List HtmlToken)
  | _, [], acc => some acc.reverse
  | 0, _, _ => Option.none
  | fuel + 1, input, acc =>
    match html_token input with
    | Option.none => Option.none
    | some (rest, tok) =>
      if rest.length < input.length then htmlTokensGo fuel rest (tok :: acc)
      else Option.none

/-- All tokens of an input. -/
def htmlTokens (input : Str) : Option (List HtmlToken) :=
  htmlTokensGo (input.length + 1) input []

/-- The concatenated content of the text tokens of a token list. -/
def textConcat : List HtmlToken → Str
  | [] => []
  | .text t :: rest => t ++ textConcat rest
  | _ :: rest => textConcat rest

/-- The C4 input (the literal characters `&amp;amp &amp;=x`). -/
def c4Input : Str := "&amp;amp &amp;=x".data

/-! ## Claim C7: witness fixtures -/

/-- A font oracle that always fails. -/
def fontsErr : FontOracle := fun _ _ _ _ => .error "no font".data

/-- A word splitter returning the run unsplit. -/
def swb0 : SplitWords := fun s => [s]

/-- A concrete viewport. -/
def vp0 : ViewportInfo := ⟨Rect.fromMinSize 0 0 800 600, 1⟩

/-- A document with one text child (layout on it hits the font
oracle). -/
def c7Dom : Node := .mk .document [.mk (.text "w".data Style.empty) []]

/-- The root box that the failing layout run returns. -/
def c7Box : OwnedLayout := (Layout.layout fontsErr swb0 (Layout.with_node c7Dom 800) vp0).1

/-! ## Claim C8: the box-tree invariant -/

mutual

/-- Every box of a layout tree, pre-order. -/
def allBoxes : OwnedLayout → List OwnedLayout
  | ⟨nd, il, cs, dl, r, m, b, p, t⟩ => ⟨nd, il, cs, dl, r, m, b, p, t⟩ :: allBoxesList cs

/-- `allBoxes` over a forest. -/
def allBoxesList : List OwnedLayout → List OwnedLayout
  | [] => []
  | bx :: rest => allBoxes bx ++ allBoxesList rest

end

mutual

/-- The C8 invariant, recursively: this box and every box below it has
only children-boxes, only inlines, or neither. -/
def boxInvTree : OwnedLayout → Bool
  | ⟨_, il, cs, _, _, _, _, _, _⟩ => boxesInv cs il && boxInvForest cs

/-- `boxInvTree` over a forest. -/
def boxInvForest : List OwnedLayout → Bool
  | [] => true
  | bx :: rest => boxInvTree bx && boxInvForest rest

end

/-- The empty document of the C8 witness. -/
def c8Dom : Node := .mk .document []

/-- The root box of the successful C8 witness run. -/
def c8Box : OwnedLayout := (Layout.layout fontsErr swb0 (Layout.with_node c8Dom 800) vp0).1

/-- Trivial external collaborators for the driver witnesses: every
request succeeds with status 200 and an empty body, no user-agent
stylesheet. -/
def ext0 : Ext :=
  { net := fun _ _ => .ok (200, [], []), fonts := fontsErr, swb := swb0, uaCss := [] }

/-! ## Parser consumption and name provenance: statement predicates
(claims C5 and C10) -/

def PSuff {α : Type} (p : P α) : Prop :=
  ∀ s r a, p s = some (r, a) → r <:+ s

def PCons {α : Type} (p : P α) : Prop :=
  ∀ s r a, p s = some (r, a) → r.length < s.length

def nameOk (input n : Str) : Prop := n <:+: input ∨ n = "script".data ∨ n = "style".data

def tokNamesOk (s : Str) : HtmlToken → Prop
  | .tag _ name attrs => name <:+: s ∧ ∀ nv ∈ attrs, nv.1 <:+: s
  | .script attrs _ => ∀ nv ∈ attrs, nv.1 <:+: s
  | .style attrs _ => ∀ nv ∈ attrs, nv.1 <:+: s
  | _ => True

def c5Src : Str := "<DIV ID=x>t</DIV>".data

def c5DomLit : Node :=
  .mk .document
    [.mk (.element "DIV".data [("ID".data, "x".data)] Style.empty)
      [.mk (.text "t".data Style.empty) []]]

def dataNamesOk (input : Str) : NodeData → Prop
  | .element name attrs _ => nameOk input name ∧ ∀ nv ∈ attrs, nameOk input nv.1
  | _ => True

mutual

def nodeNamesOk (input : Str) : Node → Prop
  | .mk d cs => dataNamesOk input d ∧ kidsNamesOk input cs

def kidsNamesOk (input : Str) : List Node → Prop
  | [] => True
  | c :: rest => nodeNamesOk input c ∧ kidsNamesOk input rest

end

def framesOk (input : Str) : List PFrame → Prop
  | [] => True
  | f :: rest => (dataNamesOk input f.data ∧ kidsNamesOk input f.kids) ∧ framesOk input rest

/-- No ASCII uppercase letter in a string. -/
def strLower (s : Str) : Bool := s.all (fun c => !(isAsciiUpper c))

/-- Element and attribute names of one payload are lowercase. -/
def dataNamesLower : NodeData → Bool
  | .element name attrs _ => strLower name && attrs.all (fun nv => strLower nv.1)
  | _ => true

mutual

/-- Every element and attribute name of a tree is lowercase. -/
def namesLower : Node → Bool
  | .mk d cs => dataNamesLower d && kidsNamesLower cs

/-- `namesLower` over a forest. -/
def kidsNamesLower : List Node → Bool
  | [] => true
  | c :: rest => namesLower c && kidsNamesLower rest

end

/-- The one surviving declaration never applies: `"blue "` (trailing
space) fails `CssColor::parse`, so the style is returned unchanged
(font-size pass). -/
lemma c3_ad_fs (s ps : Style) :
    apply_declarations [("color".data, "blue ".data)] s ps (some "font-size".data) = s := rfl

/-- As `c3_ad_fs`, for the color pass. -/
lemma c3_ad_color (s ps : Style) :
    apply_declarations [("color".data, "blue ".data)] s ps (some "color".data) = s := rfl

/-- As `c3_ad_fs`, for the everything-else pass. -/
lemma c3_ad_none (s ps : Style) :
    apply_declarations [("color".data, "blue ".data)] s ps Option.none = s := rfl

/-- Applying the parsed C3 rules is the identity on any style whenever
the declaration list is (in the relevant pass). -/
lemma c3_sa (path : NPath) (s ps : Style) (p : Option Str)
    (h : apply_declarations [("color".data, "blue ".data)] s ps p = s) :
    styleApply path c3RulesLit s ps p = s := by
  simp only [styleApply, c3RulesLit, List.foldl]
  split <;> simp [h]

/-- `styleApply` with the C3 rules: identity (font-size pass). -/
lemma c3_sa_fs (path : NPath) (s ps : Style) :
    styleApply path c3RulesLit s ps
      (some (List.cons 'f' ['o', 'n', 't', '-', 's', 'i', 'z', 'e'])) = s :=
  c3_sa _ _ _ _ (c3_ad_fs s ps)

/-- `styleApply` with the C3 rules: identity (color pass). -/
lemma c3_sa_color (path : NPath) (s ps : Style) :
    styleApply path c3RulesLit s ps (some (List.cons 'c' ['o', 'l', 'o', 'r'])) = s :=
  c3_sa _ _ _ _ (c3_ad_color s ps)

/-- `styleApply` with the C3 rules: identity (rest pass). -/
lemma c3_sa_none (path : NPath) (s ps : Style) :
    styleApply path c3RulesLit s ps Option.none = s := c3_sa _ _ _ _ (c3_ad_none s ps)

/-- Inheriting from the collapsed style yields it again. -/
lemma c3_nh : Style.new_inherited c3I0 = c3I0 := rfl

/-- Resolution of the text node (any path). -/
lemma c3KT (ups : NPath) (sibs : List Node) :
    resolveNode c3RulesLit c3I0 ups sibs c3nT = .ok c3sT := rfl

/-- None of the C3 elements carries a `style` attribute. -/
lemma c3_attr_A :
    Node.attr (.mk (.element (List.cons 'a' []) [(List.cons 'i' ['d'], List.cons 'x' [])]
        Style.empty) [c3nT]) (List.cons 's' ['t', 'y', 'l', 'e']) = Option.none := rfl

/-- The `p` element has no attributes. -/
lemma c3_attr_P :
    Node.attr (.mk (.element (List.cons 'p' []) [] Style.empty) [c3nA])
      (List.cons 's' ['t', 'y', 'l', 'e']) = Option.none := rfl

/-- The `body` element has no attributes. -/
lemma c3_attr_B :
    Node.attr (.mk (.element (List.cons 'b' ['o', 'd', 'y']) [] Style.empty) [c3nP])
      (List.cons 's' ['t', 'y', 'l', 'e']) = Option.none := rfl

/-- The `html` element has no attributes. -/
lemma c3_attr_H :
    Node.attr (.mk (.element (List.cons 'h' ['t', 'm', 'l']) [] Style.empty) [c3nB])
      (List.cons 's' ['t', 'y', 'l', 'e']) = Option.none := rfl

/-- A missing `style` attribute yields no inline declarations. -/
lemma c3_nb : Option.bind Option.none parse_style_attr = Option.none := rfl

/-- Inheriting from the empty style yields the collapsed style. -/
lemma c3_nh0 : Style.new_inherited Style.empty = c3I0 := rfl

/-- Resolution of the `a` element (any path). -/
lemma c3KA (ups : NPath) (sibs : List Node) :
    resolveNode c3RulesLit c3I0 ups sibs c3nA = .ok c3sA := by
  simp only [c3nA, resolveNode, c3_attr_A, c3_nb, c3_sa_fs, c3_sa_color, c3_sa_none, c3_nh]
  simp only [resolveKids, c3KT]
  rfl

/-- Resolution of the `p` element (any path). -/
lemma c3KP (ups : NPath) (sibs : List Node) :
    resolveNode c3RulesLit c3I0 ups sibs c3nP = .ok c3sP := by
  simp only [c3nP, resolveNode, c3_attr_P, c3_nb, c3_sa_fs, c3_sa_color, c3_sa_none, c3_nh]
  simp only [resolveKids, c3KA]
  rfl

/-- Resolution of the `body` element (any path). -/
lemma c3KB (ups : NPath) (sibs : List Node) :
    resolveNode c3RulesLit c3I0 ups sibs c3nB = .ok c3sB := by
  simp only [c3nB, resolveNode, c3_attr_B, c3_nb, c3_sa_fs, c3_sa_color, c3_sa_none, c3_nh]
  simp only [resolveKids, c3KP]
  rfl

/-- Resolution of the `html` element (any path; its parent style is the
document's empty style). -/
lemma c3KH (ups : NPath) (sibs : List Node) :
    resolveNode c3RulesLit Style.empty ups sibs c3nH = .ok c3sH := by
  simp only [c3nH, resolveNode, c3_attr_H, c3_nb, c3_sa_fs, c3_sa_color, c3_sa_none, c3_nh0,
    c3_nh]
  simp only [resolveKids, c3KB]
  rfl

/-- Style resolution of the whole C3 document. -/
lemma c3_resolve : resolve_styles c3RulesLit c3DomLit = .ok c3StyledLit := by
  simp only [c3DomLit, resolve_styles, Node.data, Node.children, NodeData.style]
  simp only [resolveKids, c3KH]
  rfl

/-- The stylesheet parse (computed). -/
lemma c3_rules_eval : parse_css_file c3Stylesheet = c3RulesLit := rfl

/-- The document parse (computed). -/
lemma c3_dom_eval : parse_html c3DocSrc = .ok c3DomLit := rfl

/-- The end-to-end computed color: black (the initial color), because
no color declaration survives parsing and value parsing. -/
lemma c3_value : c3ComputedColor = some Color32.BLACK := by
  simp only [c3ComputedColor, c3_dom_eval, c3_rules_eval, c3_resolve]
  rfl

/-! ## Display-list preservation (claim C7) -/

/-- `layChildren` never touches the parent's `display_list` field. -/
lemma layChildren_display_list
    (recur : OwnedLayout → List Paint → OwnedLayout × List Paint × Option LayoutErr) :
    ∀ (boxes : List OwnedLayout) (lb : OwnedLayout) (prev : Option OwnedLayout)
      (cr : Rect) (dl : List Paint),
      (layChildren recur lb prev cr boxes dl).1.display_list = lb.display_list := by
  intro boxes
  induction boxes with
  | nil => intro lb prev cr dl; rfl
  | cons box rest ih =>
    intro lb prev cr dl
    simp only [layChildren]
    split
    · rfl
    · exact ih _ _ _ _

/-- `layMerge` never touches the `display_list` field. -/
lemma layMerge_display_list (lb : OwnedLayout) (boxes0 : List OwnedLayout) (inls : List Node) :
    (layMerge lb boxes0 inls).2.display_list = lb.display_list := by
  simp only [layMerge]
  split
  · split <;> rfl
  · rfl

/-- `layStep1` never touches the box's `display_list` field. -/
lemma layStep1_display_list (fonts : FontOracle) (swb : SplitWords) (vp : ViewportInfo)
    (recur : OwnedLayout → List Paint → OwnedLayout × List Paint × Option LayoutErr)
    (lb : OwnedLayout) (cr : Rect) (boxes : List OwnedLayout) (dl : List Paint) :
    (layStep1 fonts swb vp recur lb cr boxes dl).1.display_list = lb.display_list := by
  simp only [layStep1]
  split
  · exact layChildren_display_list recur boxes lb Option.none cr dl
  split
  · split
    · rfl
    · split <;> rfl
  · rfl

/-- `layFinish` never touches the box's `display_list` field. -/
lemma layFinish_display_list (i : Nat) (mr pr br : Rect) (lb : OwnedLayout) (cr : Rect)
    (dl : List Paint) :
    (layFinish i mr pr br lb cr dl).1.display_list = lb.display_list := by
  simp only [layFinish]
  repeat' split
  all_goals rfl

/-- `Layout::f` never touches the box's `display_list` field (the
accumulated paints travel in the second component). -/
lemma layF_display_list (fonts : FontOracle) (swb : SplitWords) (vp : ViewportInfo)
    (fuel : Nat) (lb : OwnedLayout) (dl : List Paint) :
    (layF fonts swb vp fuel lb dl).1.display_list = lb.display_list := by
  cases fuel with
  | zero => rfl
  | succ n =>
    simp only [layF]
    split
    · rfl
    rename_i mr pr br cr heqCR
    split
    · exact layMerge_display_list _ _ _
    split
    · rename_i lb2 fst2 dl2 e heqStep
      have h2 := congrArg (fun t => t.1.display_list) heqStep
      simp only at h2
      rw [layStep1_display_list, layMerge_display_list] at h2
      exact h2.symm
    · rename_i lb2 cr2 dl2 heqStep
      have h2 := congrArg (fun t => t.1.display_list) heqStep
      simp only at h2
      rw [layStep1_display_list, layMerge_display_list] at h2
      rw [layFinish_display_list]
      exact h2.symm

/-! ## Box-tree invariant lemmas (claim C8) -/

lemma boxInvTree_eq : ∀ (lb : OwnedLayout),
    boxInvTree lb = (boxesInv lb.children lb.inlines && boxInvForest lb.children)
  | ⟨_, _, _, _, _, _, _, _, _⟩ => rfl

lemma allBoxes_eq : ∀ (lb : OwnedLayout), allBoxes lb = lb :: allBoxesList lb.children
  | ⟨_, _, _, _, _, _, _, _, _⟩ => rfl

mutual

lemma boxInvTree_mem : ∀ (lb : OwnedLayout), boxInvTree lb = true →
    ∀ b ∈ allBoxes lb, boxesInv b.children b.inlines = true
  | ⟨nd, il, cs, dl, r, m, b, p, t⟩, h, bx, hm => by
    rw [allBoxes_eq] at hm
    rw [boxInvTree_eq] at h
    simp only [Bool.and_eq_true] at h
    rcases List.mem_cons.mp hm with hh | ht
    · subst hh; exact h.1
    · exact boxInvForest_mem cs h.2 bx ht

lemma boxInvForest_mem : ∀ (l : List OwnedLayout), boxInvForest l = true →
    ∀ b ∈ allBoxesList l, boxesInv b.children b.inlines = true
  | bx :: rest, h, b2, hm => by
    simp only [boxInvForest, Bool.and_eq_true] at h
    rcases List.mem_append.mp hm with hh | ht
    · exact boxInvTree_mem bx h.1 b2 hh
    · exact boxInvForest_mem rest h.2 b2 ht

end

lemma boxInvForest_append : ∀ (l1 l2 : List OwnedLayout),
    boxInvForest (l1 ++ l2) = (boxInvForest l1 && boxInvForest l2)
  | [], l2 => by simp [boxInvForest]
  | bx :: rest, l2 => by
    show (boxInvTree bx && boxInvForest (rest ++ l2)) = _
    rw [boxInvForest_append rest l2, boxInvForest, Bool.and_assoc]

lemma genLoop_children (self : OwnedLayout) :
    ∀ (cands : List Node) (boxes : List OwnedLayout) (inls : List Node),
      (∀ b ∈ boxes, b.children = []) →
      ∀ b ∈ (genLoop self cands boxes inls).1, b.children = [] := by
  intro cands
  induction cands with
  | nil => intro boxes inls hb b hm; exact hb b hm
  | cons child rest ih =>
    intro boxes inls hb b hm
    simp only [genLoop] at hm
    split at hm
    · refine ih _ _ ?_ b hm
      intro b2 hm2
      rcases List.mem_append.mp hm2 with h2 | h2
      · split at h2
        · rcases List.mem_append.mp h2 with h3 | h3
          · exact hb b2 h3
          · rcases List.mem_singleton.mp h3 with rfl; rfl
        · exact hb b2 h2
      · rcases List.mem_singleton.mp h2 with rfl; rfl
    split at hm
    · exact ih _ _ hb b hm
    · exact ih _ _ hb b hm

lemma layMerge_boxes_children (lb : OwnedLayout) (boxes0 : List OwnedLayout)
    (inls : List Node) (hb : ∀ b ∈ boxes0, b.children = []) :
    ∀ b ∈ (layMerge lb boxes0 inls).1, b.children = [] := by
  intro b hm
  simp only [layMerge] at hm
  split at hm
  · split at hm
    · rcases List.mem_append.mp hm with h2 | h2
      · exact hb b h2
      · rcases List.mem_singleton.mp h2 with rfl; rfl
    · exact hb b hm
  · exact hb b hm

lemma layMerge_node_children (lb : OwnedLayout) (boxes0 : List OwnedLayout)
    (inls : List Node) :
    (layMerge lb boxes0 inls).2.children = lb.children
    ∧ (layMerge lb boxes0 inls).2.node = lb.node := by
  simp only [layMerge]
  split
  · split
    · exact ⟨rfl, rfl⟩
    · exact ⟨rfl, rfl⟩
  · exact ⟨rfl, rfl⟩

lemma layChildren_inv
    (recur : OwnedLayout → List Paint → OwnedLayout × List Paint × Option LayoutErr)
    (Hrec : ∀ b dlb b2 dlb2, b.children = [] → recur b dlb = (b2, dlb2, Option.none) →
      boxInvTree b2 = true) :
    ∀ (boxes : List OwnedLayout) (lb : OwnedLayout) (prev : Option OwnedLayout)
      (cr : Rect) (dl : List Paint) (lb2 : OwnedLayout) (cr2 : Rect) (dl2 : List Paint),
      (∀ b ∈ boxes, b.children = []) →
      boxInvForest lb.children = true →
      layChildren recur lb prev cr boxes dl = (lb2, cr2, dl2, Option.none) →
      boxInvForest lb2.children = true ∧ lb2.inlines = lb.inlines
      ∧ lb2.children.length = lb.children.length + boxes.length := by
  intro boxes
  induction boxes with
  | nil =>
    intro lb prev cr dl lb2 cr2 dl2 hb hf h
    cases h
    exact ⟨hf, rfl, rfl⟩
  | cons box rest ih =>
    intro lb prev cr dl lb2 cr2 dl2 hb hf h
    simp only [layChildren] at h
    split at h
    · cases h
    · rename_i box2 dlb2 heqR
      have hbox2 : boxInvTree box2 = true :=
        Hrec { box with rect := layChildRect prev cr box } dl box2 dlb2
          (hb box (List.mem_cons_self box rest)) heqR
      have hf2 : boxInvForest ({ lb with children := lb.children ++ [box2] }).children = true := by
        show boxInvForest (lb.children ++ [box2]) = true
        rw [boxInvForest_append, hf, Bool.true_and]
        show (boxInvTree box2 && boxInvForest []) = true
        rw [hbox2]; rfl
      obtain ⟨h1, h2, h3⟩ := ih _ _ _ _ _ _ _ (fun b hm => hb b (List.mem_cons_of_mem box hm))
        hf2 h
      refine ⟨h1, h2, ?_⟩
      rw [h3]
      simp only [List.length_append, List.length_cons, List.length_nil]
      omega


lemma layFinish_fields (i : Nat) (mr pr br : Rect) (lb : OwnedLayout) (cr : Rect)
    (dl : List Paint) :
    (layFinish i mr pr br lb cr dl).1.children = lb.children
    ∧ (layFinish i mr pr br lb cr dl).1.inlines = lb.inlines := by
  simp only [layFinish]
  repeat' split
  all_goals exact ⟨rfl, rfl⟩

lemma boxInvTree_ext (a b : OwnedLayout) (hc : a.children = b.children)
    (hi : a.inlines = b.inlines) : boxInvTree a = boxInvTree b := by
  rw [boxInvTree_eq, boxInvTree_eq, hc, hi]

lemma boxesInv_first (boxes : List OwnedLayout) (inls : List Node)
    (h1 : boxes.isEmpty = false) (h2 : inls.isEmpty = true) : boxesInv boxes inls = true := by
  simp [boxesInv, h1, h2]

lemma boxesInv_inls_empty (boxes : List OwnedLayout) (inls : List Node)
    (h : boxesInv boxes inls = true) (h1 : boxes.isEmpty = false) : inls = [] := by
  simpa [boxesInv, h1] using h

lemma boxesInv_both_empty (boxes : List OwnedLayout) (inls : List Node)
    (h1 : boxes = []) (h2 : inls = []) : boxesInv boxes inls = true := by
  simp [boxesInv, h1, h2]

lemma layF_inv (fonts : FontOracle) (swb : SplitWords) (vp : ViewportInfo) :
    ∀ (fuel : Nat) (lb : OwnedLayout) (dl : List Paint) (lb2 : OwnedLayout)
      (dl2 : List Paint),
      lb.children = [] →
      layF fonts swb vp fuel lb dl = (lb2, dl2, Option.none) →
      boxInvTree lb2 = true := by
  intro fuel
  induction fuel with
  | zero => intro lb dl lb2 dl2 hc h; cases h
  | succ n ih =>
    intro lb dl lb2 dl2 hc h
    simp only [layF] at h
    split at h
    · cases h
    rename_i mr pr br cr heqCR
    set cands : List Node := (match lb.node with | some nn => nn.children | none => []) with hcands
    set G : List OwnedLayout × List Node := genLoop lb cands [] [] with hG
    set boxes : List OwnedLayout := (layMerge lb G.1 G.2).1 with hboxes
    set lb1 : OwnedLayout := (layMerge lb G.1 G.2).2 with hlb1
    have hchild : ∀ b ∈ boxes, b.children = [] := by
      rw [hboxes, hG]
      exact layMerge_boxes_children lb _ _
        (genLoop_children lb cands [] [] (fun b hm => absurd hm (List.not_mem_nil b)))
    have hlb1c : lb1.children = [] := by
      rw [hlb1]
      rw [(layMerge_node_children lb G.1 G.2).1]
      exact hc
    split at h
    · simp at h
    rename_i hInvB
    have hInv : boxesInv boxes lb1.inlines = true := by
      revert hInvB
      cases hx : boxesInv boxes lb1.inlines <;> simp
    split at h
    · simp at h
    rename_i lbS crS dlS heqStep
    have hS : boxInvTree lbS = true := by
      simp only [layStep1] at heqStep
      split at heqStep
      · rename_i hblk0
        have hblk : boxes.isEmpty = false := by revert hblk0; cases boxes.isEmpty <;> simp
        obtain ⟨hforest, hinl, hlen⟩ :=
          layChildren_inv (layF fonts swb vp n)
            (fun b dlb b2 dlb2 hb hr => ih b dlb b2 dlb2 hb hr)
            boxes lb1 Option.none cr dl lbS crS dlS hchild
            (by rw [hlb1c]; rfl) heqStep
        rw [boxInvTree_eq]
        have hne : lbS.children.isEmpty = false := by
          have hlp : boxes.length ≠ 0 := by
            intro h0
            rw [List.length_eq_zero] at h0
            rw [h0] at hblk
            simp at hblk
          have : lbS.children.length ≠ 0 := by
            rw [hlen]
            omega
          cases hcc : lbS.children with
          | nil => rw [hcc] at this; simp at this
          | cons a l => rfl
        have hie : lbS.inlines = [] := by
          rw [hinl]
          exact boxesInv_inls_empty boxes lb1.inlines hInv
            hblk
        rw [boxesInv_first lbS.children lbS.inlines hne (by rw [hie]; rfl), hforest]
        rfl
      split at heqStep
      · rename_i hblk0 hinls0
        split at heqStep
        · cases heqStep
        split at heqStep
        · cases heqStep
        · cases heqStep
          rw [boxInvTree_eq, hlb1c]
          have hbe : boxes = [] := by
            have : boxes.isEmpty = true := by revert hblk0; cases boxes.isEmpty <;> simp
            cases hbx : boxes with
            | nil => rfl
            | cons a l => rw [hbx] at this; simp at this
          have : boxesInv ([] : List OwnedLayout) lb1.inlines = true := by
            rw [← hbe]; exact hInv
          rw [this]
          rfl
      · rename_i hblk0 hinls0
        cases heqStep
        rw [boxInvTree_eq, hlb1c]
        have hie : lb1.inlines = [] := by
          have : lb1.inlines.isEmpty = true := by revert hinls0; cases lb1.inlines.isEmpty <;> simp
          cases hbx : lb1.inlines with
          | nil => rfl
          | cons a l => rw [hbx] at this; simp at this
        rw [boxesInv_both_empty [] lb1.inlines rfl hie]
        rfl
    have h1 := congrArg (fun t => t.1) h
    simp only at h1
    rw [← h1]
    rw [boxInvTree_ext (layFinish dl.length mr pr br lbS crS dlS).1 lbS
      (layFinish_fields dl.length mr pr br lbS crS dlS).1
      (layFinish_fields dl.length mr pr br lbS crS dlS).2]
    exact hS


/-! ## Style resolution only writes styles (claim C1) -/

/-- An `Except` bind that succeeds: the first stage succeeded and the
continuation succeeded on its value. -/
lemma except_bind_ok {ε α β : Type} (x : Except ε α) (f : α → Except ε β) (b : β)
    (h : (x >>= f) = .ok b) : ∃ a, x = .ok a ∧ f a = .ok b := by
  cases x with
  | error e => exact absurd h (by simp [Bind.bind, Except.bind])
  | ok a => exact ⟨a, rfl, by simpa [Bind.bind, Except.bind] using h⟩

mutual

/-- `resolveNode` only writes styles: the stripped tree is unchanged. -/
lemma resolveNode_strip : ∀ (rules : RuleList) (ps : Style) (ups : NPath) (sibs : List Node)
    (n n2 : Node), resolveNode rules ps ups sibs n = .ok n2 → n2.strip = n.strip
  | rules, ps, ups, sibs, .mk d cs, n2, h => by
    cases d with
    | document => exact absurd h (by simp [resolveNode])
    | comment v =>
      simp only [resolveNode] at h
      obtain ⟨cs2, hk, hp⟩ := except_bind_ok _ _ _ h
      cases hp
      show Node.strip (.mk (.comment v) cs2) = Node.strip (.mk (.comment v) cs)
      simp only [Node.strip, NodeData.strip]
      rw [resolveKids_strip _ _ _ _ _ _ hk]
    | text v st =>
      simp only [resolveNode] at h
      obtain ⟨cs2, hk, hp⟩ := except_bind_ok _ _ _ h
      cases hp
      show Node.strip (.mk (.text v ps.new_inherited) cs2) = Node.strip (.mk (.text v st) cs)
      simp only [Node.strip, NodeData.strip]
      rw [resolveKids_strip _ _ _ _ _ _ hk]
    | element name attrs st =>
      simp only [resolveNode] at h
      obtain ⟨cs2, hk, hp⟩ := except_bind_ok _ _ _ h
      cases hp
      simp only [Node.strip, NodeData.strip]
      rw [resolveKids_strip _ _ _ _ _ _ hk]

/-- `resolveKids` only writes styles. -/
lemma resolveKids_strip : ∀ (rules : RuleList) (ps : Style) (pp : NPath) (done : List Node)
    (l l2 : List Node), resolveKids rules ps pp done l = .ok l2 → stripList l2 = stripList l
  | rules, ps, pp, done, [], l2, h => by
    cases h
    rfl
  | rules, ps, pp, done, c :: rest, l2, h => by
    simp only [resolveKids] at h
    obtain ⟨c2, hc, h2⟩ := except_bind_ok _ _ _ h
    obtain ⟨rest2, hr, hp⟩ := except_bind_ok _ _ _ h2
    cases hp
    simp only [stripList]
    rw [resolveNode_strip _ _ _ _ _ _ hc, resolveKids_strip _ _ _ _ _ _ hr]

end

/-- Source `resolve_styles` only writes styles: structure, names,
attributes and text are carried unchanged. -/
lemma resolve_styles_strip (rules : RuleList) (dom dom2 : Node)
    (h : resolve_styles rules dom = .ok dom2) : dom2.strip = dom.strip := by
  cases dom with
  | mk d cs =>
    simp only [resolve_styles] at h
    obtain ⟨cs2, hk, hp⟩ := except_bind_ok _ _ _ h
    cases hp
    simp only [Node.strip]
    rw [resolveKids_strip _ _ _ _ _ _ hk]
    rfl


/-! ## Parser consumption and name provenance lemmas (claims C5 and
C10) -/

lemma pbind_some {α β : Type} (p : P α) (f : α → P β) (s r : Str) (b : β)
    (h : (p >>= f) s = some (r, b)) :
    ∃ s1 a, p s = some (s1, a) ∧ f a s1 = some (r, b) := by
  have h2 : (match p s with
      | Option.none => Option.none
      | some (rest, a) => f a rest) = some (r, b) := h
  cases hp : p s with
  | none => rw [hp] at h2; cases h2
  | some pr =>
    rw [hp] at h2
    exact ⟨pr.1, pr.2, rfl, h2⟩

lemma pBind_suff {α β : Type} {p : P α} {f : α → P β} (hp : PSuff p)
    (hf : ∀ a, PSuff (f a)) : PSuff (p >>= f) := by
  intro s r b h
  obtain ⟨s1, a, h1, h2⟩ := pbind_some p f s r b h
  exact (hf a s1 r b h2).trans (hp s s1 a h1)

lemma pPure_suff {α : Type} (a : α) : PSuff (pure a : P α) := by
  intro s r b h
  cases h
  exact List.suffix_refl s

lemma pBind_cons {α β : Type} {p : P α} {f : α → P β} (hp : PCons p)
    (hf : ∀ a, PSuff (f a)) : PCons (p >>= f) := by
  intro s r b h
  obtain ⟨s1, a, h1, h2⟩ := pbind_some p f s r b h
  exact Nat.lt_of_le_of_lt ((hf a s1 r b h2).length_le) (hp s s1 a h1)

lemma pOr_suff {α : Type} {p q : P α} (hp : PSuff p) (hq : PSuff q) : PSuff (pOr p q) := by
  intro s r a h
  cases hx : p s with
  | none =>
    refine hq s r a ?_
    have h2 : (match p s with | Option.none => q s | r2 => r2) = some (r, a) := h
    rw [hx] at h2
    exact h2
  | some v =>
    have h2 : (match p s with | Option.none => q s | r2 => r2) = some (r, a) := h
    rw [hx] at h2
    exact hp s r a (hx.trans (show some v = some (r, a) from h2))

lemma pOr_cons {α : Type} {p q : P α} (hp : PCons p) (hq : PCons q) : PCons (pOr p q) := by
  intro s r a h
  cases hx : p s with
  | none =>
    refine hq s r a ?_
    have h2 : (match p s with | Option.none => q s | r2 => r2) = some (r, a) := h
    rw [hx] at h2
    exact h2
  | some v =>
    have h2 : (match p s with | Option.none => q s | r2 => r2) = some (r, a) := h
    rw [hx] at h2
    exact hp s r a (hx.trans (show some v = some (r, a) from h2))

lemma pTag_suff (t : Str) : PSuff (pTag t) := by
  intro s r a h
  simp only [pTag] at h
  split at h
  · cases h; exact List.drop_suffix _ _
  · cases h

lemma pTag_cons (t : Str) (ht : t ≠ []) : PCons (pTag t) := by
  intro s r a h
  simp only [pTag] at h
  split at h
  · rename_i hpre
    cases h
    have hle : t.length ≤ s.length :=
      (List.isPrefixOf_iff_prefix.mp hpre).length_le
    have ht1 : 1 ≤ t.length := by
      cases t with
      | nil => exact absurd rfl ht
      | cons c cs => simp
    rw [List.length_drop]
    omega
  · cases h

lemma pTagNoCase_suff (t : Str) : PSuff (pTagNoCase t) := by
  intro s r a h
  simp only [pTagNoCase] at h
  split at h
  · cases h; exact List.drop_suffix _ _
  · cases h

lemma lowerStr_length (s : Str) : (lowerStr s).length = s.length := by
  simp [lowerStr]

lemma pTagNoCase_cons (t : Str) (ht : t ≠ []) : PCons (pTagNoCase t) := by
  intro s r a h
  simp only [pTagNoCase] at h
  split at h
  · rename_i hpre
    cases h
    have hle : (lowerStr t).length ≤ (lowerStr s).length :=
      (List.isPrefixOf_iff_prefix.mp hpre).length_le
    rw [lowerStr_length, lowerStr_length] at hle
    have ht1 : 1 ≤ t.length := by
      cases t with
      | nil => exact absurd rfl ht
      | cons c cs => simp
    rw [List.length_drop]
    omega
  · cases h

lemma pChar_suff (c : Char) : PSuff (pChar c) := by
  intro s r a h
  cases s with
  | nil => cases h
  | cons c2 rest =>
    simp only [pChar] at h
    split at h
    · cases h; exact ⟨[c2], rfl⟩
    · cases h

lemma pChar_cons (c : Char) : PCons (pChar c) := by
  intro s r a h
  cases s with
  | nil => cases h
  | cons c2 rest =>
    simp only [pChar] at h
    split at h
    · cases h; simp
    · cases h

lemma pTakeWhile_suff (p : Char → Bool) : PSuff (pTakeWhile p) := by
  intro s r a h
  cases h
  exact List.dropWhile_suffix p

lemma pTakeWhile1_suff (p : Char → Bool) : PSuff (pTakeWhile1 p) := by
  intro s r a h
  simp only [pTakeWhile1] at h
  split at h
  · cases h
  · cases h; exact List.dropWhile_suffix p

lemma pTakeWhile1_cons (p : Char → Bool) : PCons (pTakeWhile1 p) := by
  intro s r a h
  simp only [pTakeWhile1] at h
  split at h
  · cases h
  · rename_i taken hne
    cases h
    have hsplit : s.takeWhile p ++ s.dropWhile p = s := List.takeWhile_append_dropWhile p s
    have hlen : (s.takeWhile p).length + (s.dropWhile p).length = s.length := by
      rw [← List.length_append, hsplit]
    have h1 : 1 ≤ (s.takeWhile p).length := by
      cases hx : s.takeWhile p with
      | nil => rw [hx] at hne; exact absurd rfl hne
      | cons c cs => simp
    omega

lemma pOpt_suff {α : Type} {p : P α} (hp : PSuff p) : PSuff (pOpt p) := by
  intro s r a h
  simp only [pOpt] at h
  split at h
  · cases h; exact List.suffix_refl s
  · rename_i x rest1 a1 hv
    cases h
    exact hp s _ _ hv


lemma pAnyChar_suff : PSuff pAnyChar := by
  intro s r a h
  cases s with
  | nil => cases h
  | cons c rest => cases h; exact List.suffix_cons _ _

lemma pTake1_suff : PSuff pTake1 := by
  intro s r a h
  cases s with
  | nil => cases h
  | cons c rest => cases h; exact List.suffix_cons _ _

lemma pOneOf_suff (cs : Str) : PSuff (pOneOf cs) := by
  intro s r a h
  cases s with
  | nil => cases h
  | cons c rest =>
    simp only [pOneOf] at h
    split at h
    · cases h; exact List.suffix_cons _ _
    · cases h

lemma pPeek_suff {α : Type} (p : P α) : PSuff (pPeek p) := by
  intro s r a h
  simp only [pPeek] at h
  split at h
  · cases h
  · cases h; exact List.suffix_refl s

lemma pMap_suff {α β : Type} {p : P α} (hp : PSuff p) (f : α → β) : PSuff (pMap p f) := by
  intro s r a h
  simp only [pMap] at h
  split at h
  · cases h
  · rename_i x0 v1 v2 hv
    cases h
    exact hp s _ _ hv

lemma pRecognize_suff {α : Type} {p : P α} (hp : PSuff p) : PSuff (pRecognize p) := by
  intro s r a h
  simp only [pRecognize] at h
  split at h
  · cases h
  · rename_i x0 v1 v2 hv
    cases h
    exact hp s _ _ hv

lemma pMapParser_suff {β : Type} {outer : P Str} {inner : P β} (ho : PSuff outer) :
    PSuff (pMapParser outer inner) := by
  intro s r a h
  simp only [pMapParser] at h
  split at h
  · cases h
  · rename_i x0 v1 v2 hv
    split at h
    · cases h
    · rename_i y0 w1 w2 hw
      cases h
      exact ho s _ _ hv

lemma pMany0Go_suff {α : Type} {p : P α} (hp : PSuff p) :
    ∀ (fuel : Nat) (s r : Str) (as : List α), pMany0Go p fuel s = some (r, as) → r <:+ s := by
  intro fuel
  induction fuel with
  | zero => intro s r as h; cases h
  | succ n ih =>
    intro s r as h
    simp only [pMany0Go] at h
    split at h
    · cases h; exact List.suffix_refl s
    · rename_i x0 v1 v2 hv
      split at h
      · split at h
        · cases h
        · rename_i y0 w1 w2 hw
          cases h
          exact (ih v1 _ _ hw).trans (hp s v1 v2 hv)
      · cases h

lemma pMany0_suff {α : Type} {p : P α} (hp : PSuff p) : PSuff (pMany0 p) := by
  intro s r as h
  exact pMany0Go_suff hp _ s r as h

lemma pMany1_suff {α : Type} {p : P α} (hp : PSuff p) : PSuff (pMany1 p) := by
  intro s r as h
  simp only [pMany1] at h
  split at h
  · cases h
  · rename_i x0 v1 v2 hv
    split at h
    · split at h
      · cases h
      · rename_i y0 w1 w2 hw
        cases h
        exact (pMany0Go_suff hp _ v1 _ _ hw).trans (hp s v1 v2 hv)
    · cases h

lemma pManyTillGo_suff {α β : Type} {f : P α} {g : P β} (hf : PSuff f) (hg : PSuff g) :
    ∀ (fuel : Nat) (s r : Str) (v : List α × β), pManyTillGo f g fuel s = some (r, v) → r <:+ s := by
  intro fuel
  induction fuel with
  | zero => intro s r v h; cases h
  | succ n ih =>
    intro s r v h
    simp only [pManyTillGo] at h
    split at h
    · rename_i x0 w1 w2 hw
      cases h
      exact hg s _ _ hw
    · split at h
      · cases h
      · rename_i y0 w1 w2 hw
        split at h
        · split at h
          · cases h
          · rename_i z0 u1 u2 hu
            cases h
            exact (ih w1 _ _ hu).trans (hf s w1 w2 hw)
        · cases h

lemma pManyTill_suff {α β : Type} {f : P α} {g : P β} (hf : PSuff f) (hg : PSuff g) :
    PSuff (pManyTill f g) := by
  intro s r v h
  exact pManyTillGo_suff hf hg _ s r v h

lemma pSepListGo_suff {α β : Type} {sep : P β} {elem : P α} (hs : PSuff sep) (he : PSuff elem) :
    ∀ (fuel : Nat) (s : Str) (acc : List α) (r : Str) (as : List α),
      pSepListGo sep elem fuel s acc = some (r, as) → r <:+ s := by
  intro fuel
  induction fuel with
  | zero => intro s acc r as h; cases h
  | succ n ih =>
    intro s acc r as h
    simp only [pSepListGo] at h
    split at h
    · cases h; exact List.suffix_refl s
    · rename_i x0 v1 v2 hv
      split at h
      · split at h
        · cases h; exact List.suffix_refl s
        · rename_i y0 w1 w2 hw
          exact (ih w1 _ r as h).trans ((he v1 w1 w2 hw).trans (hs s v1 v2 hv))
      · cases h

lemma pSepList1_suff {α β : Type} {sep : P β} {elem : P α} (hs : PSuff sep) (he : PSuff elem) :
    PSuff (pSepList1 sep elem) := by
  intro s r as h
  simp only [pSepList1] at h
  split at h
  · cases h
  · rename_i x0 v1 v2 hv
    exact (pSepListGo_suff hs he _ v1 _ r as h).trans (he s v1 v2 hv)

lemma pPreceded_suff {α β : Type} {a : P α} {b : P β} (ha : PSuff a) (hb : PSuff b) :
    PSuff (pPreceded a b) :=
  pBind_suff ha (fun _ => hb)

lemma pTerminated_suff {α β : Type} {a : P α} {b : P β} (ha : PSuff a) (hb : PSuff b) :
    PSuff (pTerminated a b) :=
  pBind_suff ha (fun x => pBind_suff hb (fun _ => pPure_suff x))

lemma pDelimited_suff {α β γ : Type} {a : P α} {b : P β} {c : P γ}
    (ha : PSuff a) (hb : PSuff b) (hc : PSuff c) : PSuff (pDelimited a b c) :=
  pBind_suff ha (fun _ => pBind_suff hb (fun x => pBind_suff hc (fun _ => pPure_suff x)))

lemma pPreceded_cons {α β : Type} {a : P α} {b : P β} (ha : PCons a) (hb : PSuff b) :
    PCons (pPreceded a b) :=
  pBind_cons ha (fun _ => hb)


lemma stt_suff (tag : Str) : PSuff (shortest_until_tag_no_case tag) := by
  intro s r a h
  simp only [shortest_until_tag_no_case] at h
  split at h
  · cases h
  · cases h
    exact List.drop_suffix _ _

lemma entityLookup_matches (table : List (Str × Str)) (input name value : Str)
    (h : entityLookup table input = some (name, value)) : name.isPrefixOf input = true := by
  simp only [entityLookup] at h
  have h2 := List.find?_some h
  simpa using h2

lemma entityLookup_mem (table : List (Str × Str)) (input name value : Str)
    (h : entityLookup table input = some (name, value)) : (name, value) ∈ table :=
  List.mem_of_find?_eq_some h

lemma entities_ws_nonempty : ∀ e ∈ ENTITIES_WITH_SEMICOLON, 1 ≤ e.1.length := by decide

lemma entities_wos_nonempty : ∀ e ∈ ENTITIES_WITHOUT_SEMICOLON, 1 ≤ e.1.length := by decide

lemma html_entity_suff (in_attr : Bool) : PSuff (html_entity in_attr) := by
  intro s r a h
  simp only [html_entity] at h
  split at h
  · rename_i x0 n1 v1 hv
    cases h
    exact List.drop_suffix _ _
  · split at h
    · rename_i y0 n1 v1 hv
      split at h
      · cases h; exact List.drop_suffix _ _
      · cases h; exact List.drop_suffix _ _
    · split at h
      · cases h
      · cases h
        exact List.suffix_cons _ _

lemma html_entity_cons (in_attr : Bool) : PCons (html_entity in_attr) := by
  intro s r a h
  simp only [html_entity] at h
  split at h
  · rename_i x0 n1 v1 hv
    cases h
    have hpre := (List.isPrefixOf_iff_prefix.mp (entityLookup_matches _ _ _ _ hv)).length_le
    have hne := entities_ws_nonempty _ (entityLookup_mem _ _ _ _ hv)
    simp only at hne
    rw [List.length_drop]
    omega
  · split at h
    · rename_i y0 n1 v1 hv
      have hpre := (List.isPrefixOf_iff_prefix.mp (entityLookup_matches _ _ _ _ hv)).length_le
      have hne := entities_wos_nonempty _ (entityLookup_mem _ _ _ _ hv)
      simp only at hne
      split at h
      · cases h
        rw [List.length_drop]
        omega
      · cases h
        rw [List.length_drop]
        omega
    · split at h
      · cases h
      · cases h
        simp

lemma html_ident_suff : PSuff html_ident := pTakeWhile1_suff _

lemma html_space_suff : PSuff html_space := pTakeWhile1_suff _

lemma html_text_suff (in_attr : Bool) : PSuff (html_text in_attr) :=
  pOr_suff (pTakeWhile1_suff _) (pOr_suff (html_entity_suff in_attr) (pTag_suff _))

lemma html_text_cons (in_attr : Bool) : PCons (html_text in_attr) :=
  pOr_cons (pTakeWhile1_cons _) (pOr_cons (html_entity_cons in_attr)
    (pTag_cons _ (by decide)))

lemma quoted_attr_value_suff : PSuff quoted_attr_value := by
  intro s r a h
  simp only [quoted_attr_value] at h
  cases hx : quotedAttrGo (s.length + 1) s with
  | none => rw [hx] at h; cases h
  | some v =>
    rw [hx] at h
    cases h
    exact List.nil_suffix

lemma html_attr_value_suff : PSuff html_attr_value := by
  refine pOr_suff (pDelimited_suff (pChar_suff _) (pMapParser_suff (pTakeWhile_suff _)) (pChar_suff _)) ?_
  exact pOr_suff (pDelimited_suff (pChar_suff _) (pMapParser_suff (pTakeWhile_suff _)) (pChar_suff _))
    (pTakeWhile_suff _)

lemma html_attr_suff : PSuff html_attr :=
  pBind_suff html_space_suff (fun _ =>
    pBind_suff html_ident_suff (fun _ =>
      pBind_suff (pOpt_suff (pPreceded_suff
          (pBind_suff (pOpt_suff html_space_suff) (fun _ =>
            pBind_suff (pTag_suff _) (fun _ =>
              pBind_suff (pOpt_suff html_space_suff) (fun _ => pPure_suff _))))
          html_attr_value_suff)) (fun _ =>
        pPure_suff _)))

lemma html_tag_suff : PSuff html_tag :=
  pBind_suff (pChar_suff _) (fun _ =>
    pBind_suff (pOpt_suff (pTag_suff _)) (fun _ =>
      pBind_suff html_ident_suff (fun _ =>
        pBind_suff (pMany0_suff html_attr_suff) (fun _ =>
          pBind_suff (pOpt_suff html_space_suff) (fun _ =>
            pBind_suff (pOpt_suff (pTag_suff _)) (fun _ =>
              pBind_suff (pChar_suff _) (fun _ => pPure_suff _)))))))

lemma html_tag_cons : PCons html_tag :=
  pBind_cons (pChar_cons _) (fun _ =>
    pBind_suff (pOpt_suff (pTag_suff _)) (fun _ =>
      pBind_suff html_ident_suff (fun _ =>
        pBind_suff (pMany0_suff html_attr_suff) (fun _ =>
          pBind_suff (pOpt_suff html_space_suff) (fun _ =>
            pBind_suff (pOpt_suff (pTag_suff _)) (fun _ =>
              pBind_suff (pChar_suff _) (fun _ => pPure_suff _)))))))

lemma html_script_cons : PCons html_script :=
  pBind_cons (pTagNoCase_cons _ (by decide)) (fun _ =>
    pBind_suff (pMany0_suff html_attr_suff) (fun _ =>
      pBind_suff (pOpt_suff html_space_suff) (fun _ =>
        pBind_suff (pTag_suff _) (fun _ =>
          pBind_suff (stt_suff _) (fun _ => pPure_suff _)))))

lemma html_style_cons : PCons html_style :=
  pBind_cons (pTagNoCase_cons _ (by decide)) (fun _ =>
    pBind_suff (pMany0_suff html_attr_suff) (fun _ =>
      pBind_suff (pOpt_suff html_space_suff) (fun _ =>
        pBind_suff (pTag_suff _) (fun _ =>
          pBind_suff (stt_suff _) (fun _ => pPure_suff _)))))

lemma html_comment_cons : PCons html_comment :=
  pPreceded_cons (pTag_cons _ (by decide)) (stt_suff _)

lemma html_doctype_cons : PCons html_doctype :=
  pPreceded_cons (pTag_cons _ (by decide)) (stt_suff _)

lemma html_token_cons :
    ∀ (s r : Str) (tok : HtmlToken), html_token s = some (r, tok) → r.length < s.length := by
  intro s r tok h
  simp only [html_token] at h
  split at h
  · rename_i x0 r1 t1 hv
    cases h
    exact html_comment_cons s _ _ hv
  split at h
  · rename_i x0 r1 a1 t1 hv
    cases h
    exact html_script_cons s _ _ hv
  split at h
  · rename_i x0 r1 a1 t1 hv
    cases h
    exact html_style_cons s _ _ hv
  split at h
  · rename_i x0 r1 c1 n1 a1 hv
    cases h
    exact html_tag_cons s _ _ hv
  split at h
  · rename_i x0 r1 t1 hv
    cases h
    exact html_doctype_cons s _ _ hv
  split at h
  · rename_i x0 r1 t1 hv
    cases h
    exact html_text_cons false s _ _ hv
  · cases h


lemma parseStep_no_fuel (st : PState) (tok : HtmlToken) :
    parseStep st tok ≠ .error .fuel := by
  intro h
  cases tok <;> simp only [parseStep] at h
  case comment => cases h
  case script => cases h
  case style =>
    split at h
    · cases h
    · cases h
  case tag closing name attrs =>
    cases closing <;> simp only at h
    · split at h
      · cases h
      · cases h
    · split at h
      · cases h
      · cases h
  case text => cases h
  case doctype => cases h

lemma parseLoop_no_fuel :
    ∀ (fuel : Nat) (input : Str) (st : PState), input.length ≤ fuel →
      parseLoop fuel input st ≠ .error .fuel := by
  intro fuel
  induction fuel with
  | zero =>
    intro input st hlt h
    cases input with
    | nil => cases h
    | cons c cs => simp at hlt
  | succ n ih =>
    intro input st hlt h
    cases input with
    | nil => cases h
    | cons c cs =>
      simp only [parseLoop] at h
      split at h
      · cases h
      · rename_i x0 rest tok htok
        split at h
        · cases h
          rename_i e heqS
          exact parseStep_no_fuel _ _ heqS
        · rename_i st2 heqS
          have hc := html_token_cons (c :: cs) rest tok htok
          have : rest.length ≤ n := by
            simp only [List.length_cons] at hlt hc
            omega
          exact ih rest st2 this h

lemma infix_of_prefix_suffix {a b c : Str} (h1 : a <+: b) (h2 : b <:+ c) : a <:+: c :=
  h1.isInfix.trans h2.isInfix

lemma infix_of_infix_suffix {a b c : Str} (h1 : a <:+: b) (h2 : b <:+ c) : a <:+: c :=
  h1.trans h2.isInfix

lemma pTakeWhile1_taken (p : Char → Bool) (s r a : Str)
    (h : pTakeWhile1 p s = some (r, a)) : a <+: s := by
  simp only [pTakeWhile1] at h
  split at h
  · cases h
  · rename_i taken hne
    cases h
    exact List.takeWhile_prefix p

lemma html_attr_name (s r : Str) (nv : Str × Str) (h : html_attr s = some (r, nv)) :
    nv.1 <:+: s := by
  obtain ⟨s1, w1, h1, h⟩ := pbind_some _ _ _ _ _ h
  obtain ⟨s2, nm, h2, h⟩ := pbind_some _ _ _ _ _ h
  obtain ⟨s3, value, h3, h⟩ := pbind_some _ _ _ _ _ h
  cases h
  exact infix_of_prefix_suffix (pTakeWhile1_taken _ _ _ _ h2) (html_space_suff s s1 w1 h1)

lemma pMany0Go_attr_names :
    ∀ (fuel : Nat) (s r : Str) (as : List (Str × Str)),
      pMany0Go html_attr fuel s = some (r, as) → ∀ nv ∈ as, nv.1 <:+: s := by
  intro fuel
  induction fuel with
  | zero => intro s r as h; cases h
  | succ n ih =>
    intro s r as h nv hm
    simp only [pMany0Go] at h
    split at h
    · cases h; cases hm
    · rename_i x0 v1 v2 hv
      split at h
      · split at h
        · cases h
        · rename_i y0 w1 w2 hw
          cases h
          rcases List.mem_cons.mp hm with hh | ht
          · subst hh; exact html_attr_name s v1 nv hv
          · exact infix_of_infix_suffix (ih v1 _ _ hw nv ht) (html_attr_suff s v1 v2 hv)
      · cases h

lemma html_tag_names (s r : Str) (v : Bool × Str × List (Str × Str))
    (h : html_tag s = some (r, v)) :
    v.2.1 <:+: s ∧ ∀ nv ∈ v.2.2, nv.1 <:+: s := by
  obtain ⟨s1, c1, h1, h⟩ := pbind_some _ _ _ _ _ h
  obtain ⟨s2, slash, h2, h⟩ := pbind_some _ _ _ _ _ h
  obtain ⟨s3, nm, h3, h⟩ := pbind_some _ _ _ _ _ h
  obtain ⟨s4, attrs, h4, h⟩ := pbind_some _ _ _ _ _ h
  obtain ⟨s5, w5, h5, h⟩ := pbind_some _ _ _ _ _ h
  obtain ⟨s6, w6, h6, h⟩ := pbind_some _ _ _ _ _ h
  obtain ⟨s7, w7, h7, h⟩ := pbind_some _ _ _ _ _ h
  cases h
  have hs2 : s2 <:+ s :=
    ((pOpt_suff (pTag_suff _)) s1 s2 slash h2).trans (pChar_suff '<' s s1 c1 h1)
  have hs3 : s3 <:+ s := (html_ident_suff s2 s3 nm h3).trans hs2
  constructor
  · exact infix_of_prefix_suffix (pTakeWhile1_taken _ _ _ _ h3) hs2
  · intro nv hm
    exact infix_of_infix_suffix (pMany0Go_attr_names _ s3 s4 attrs h4 nv hm) hs3

lemma html_script_names (s r : Str) (v : List (Str × Str) × Str)
    (h : html_script s = some (r, v)) : ∀ nv ∈ v.1, nv.1 <:+: s := by
  obtain ⟨s1, t1, h1, h⟩ := pbind_some _ _ _ _ _ h
  obtain ⟨s2, attrs, h2, h⟩ := pbind_some _ _ _ _ _ h
  obtain ⟨s3, w3, h3, h⟩ := pbind_some _ _ _ _ _ h
  obtain ⟨s4, w4, h4, h⟩ := pbind_some _ _ _ _ _ h
  obtain ⟨s5, text, h5, h⟩ := pbind_some _ _ _ _ _ h
  cases h
  intro nv hm
  exact infix_of_infix_suffix (pMany0Go_attr_names _ s1 s2 attrs h2 nv hm)
    (pTagNoCase_suff _ s s1 t1 h1)

lemma html_style_names (s r : Str) (v : List (Str × Str) × Str)
    (h : html_style s = some (r, v)) : ∀ nv ∈ v.1, nv.1 <:+: s := by
  obtain ⟨s1, t1, h1, h⟩ := pbind_some _ _ _ _ _ h
  obtain ⟨s2, attrs, h2, h⟩ := pbind_some _ _ _ _ _ h
  obtain ⟨s3, w3, h3, h⟩ := pbind_some _ _ _ _ _ h
  obtain ⟨s4, w4, h4, h⟩ := pbind_some _ _ _ _ _ h
  obtain ⟨s5, text, h5, h⟩ := pbind_some _ _ _ _ _ h
  cases h
  intro nv hm
  exact infix_of_infix_suffix (pMany0Go_attr_names _ s1 s2 attrs h2 nv hm)
    (pTagNoCase_suff _ s s1 t1 h1)

lemma html_token_names (s r : Str) (tok : HtmlToken) (h : html_token s = some (r, tok)) :
    tokNamesOk s tok := by
  simp only [html_token] at h
  split at h
  · cases h; trivial
  split at h
  · rename_i x0 r1 a1 t1 hv
    cases h
    exact html_script_names s r (a1, t1) hv
  split at h
  · rename_i x0 r1 a1 t1 hv
    cases h
    exact html_style_names s r (a1, t1) hv
  split at h
  · rename_i x0 r1 c1 n1 a1 hv
    cases h
    exact html_tag_names s r (c1, n1, a1) hv
  split at h
  · cases h; trivial
  split at h
  · cases h; trivial
  · cases h

lemma html_token_suff (s r : Str) (tok : HtmlToken) (h : html_token s = some (r, tok)) :
    r <:+ s := by
  simp only [html_token] at h
  split at h
  · rename_i x0 r1 t1 hv
    cases h
    exact pPreceded_suff (pTag_suff _) (stt_suff _) s r t1 hv
  split at h
  · rename_i x0 r1 a1 t1 hv
    cases h
    refine pBind_suff (pTagNoCase_suff _) (fun _ => pBind_suff (pMany0_suff html_attr_suff)
      (fun _ => pBind_suff (pOpt_suff html_space_suff) (fun _ => pBind_suff (pTag_suff _)
      (fun _ => pBind_suff (stt_suff _) (fun _ => pPure_suff _))))) s r _ hv
  split at h
  · rename_i x0 r1 a1 t1 hv
    cases h
    refine pBind_suff (pTagNoCase_suff _) (fun _ => pBind_suff (pMany0_suff html_attr_suff)
      (fun _ => pBind_suff (pOpt_suff html_space_suff) (fun _ => pBind_suff (pTag_suff _)
      (fun _ => pBind_suff (stt_suff _) (fun _ => pPure_suff _))))) s r _ hv
  split at h
  · rename_i x0 r1 c1 n1 a1 hv
    cases h
    exact html_tag_suff s r _ hv
  split at h
  · rename_i x0 r1 t1 hv
    cases h
    exact pPreceded_suff (pTag_suff _) (stt_suff _) s r t1 hv
  split at h
  · rename_i x0 r1 t1 hv
    cases h
    exact html_text_suff false s r t1 hv
  · cases h

lemma c5_parse_eval : parse_html c5Src = .ok c5DomLit := rfl

lemma kidsNamesOk_append (input : Str) :
    ∀ (l1 l2 : List Node), kidsNamesOk input l1 → kidsNamesOk input l2 →
      kidsNamesOk input (l1 ++ l2)
  | [], _, _, h2 => h2
  | _ :: rest, l2, h1, h2 =>
    ⟨h1.1, kidsNamesOk_append input rest l2 h1.2 h2⟩

lemma push_ok (input : Str) (st : PState) (n : Node)
    (hst : framesOk input st.stack) (hn : nodeNamesOk input n) :
    framesOk input (st.push n).stack := by
  simp only [PState.push]
  split
  · exact hst
  · rename_i f rest heq
    rw [heq] at hst
    exact ⟨⟨hst.1.1, kidsNamesOk_append input f.kids [n] hst.1.2 ⟨hn, trivial⟩⟩, hst.2⟩

lemma closeOne_ok (input : Str) (st : PState) (hst : framesOk input st.stack) :
    framesOk input st.closeOne.stack := by
  simp only [PState.closeOne]
  split
  · rename_i f g rest heq
    rw [heq] at hst
    exact ⟨⟨hst.2.1.1,
      kidsNamesOk_append input g.kids [Node.mk f.data f.kids] hst.2.1.2
        ⟨⟨hst.1.1, hst.1.2⟩, trivial⟩⟩, hst.2.2⟩
  · exact hst

lemma closeN_ok (input : Str) :
    ∀ (n : Nat) (st : PState), framesOk input st.stack → framesOk input (st.closeN n).stack
  | 0, _, h => h
  | n + 1, st2, h => closeN_ok input n st2.closeOne (closeOne_ok input st2 h)

lemma applyNoNest_ok (input : Str) (name : Str) (st : PState)
    (hst : framesOk input st.stack) : framesOk input (applyNoNest name st).stack := by
  simp only [applyNoNest]
  generalize NO_NEST = l
  induction l generalizing st with
  | nil => exact hst
  | cons e rest ih =>
    simp only [List.foldl_cons]
    apply ih
    split
    · split
      · exact closeN_ok input _ st hst
      · exact hst
    · exact hst

lemma finish_ok (input : Str) (st : PState) (hst : framesOk input st.stack) :
    nodeNamesOk input st.finish := by
  simp only [PState.finish]
  have h2 := closeN_ok input (st.stack.length - 1) st hst
  split
  · rename_i f rest heq
    rw [heq] at h2
    exact ⟨h2.1.1, h2.1.2⟩
  · exact ⟨trivial, trivial⟩

lemma parseStep_ok (input s : Str) (st st2 : PState) (tok : HtmlToken)
    (hst : framesOk input st.stack) (htok : tokNamesOk s tok) (hs : s <:+ input)
    (h : parseStep st tok = .ok st2) : framesOk input st2.stack := by
  cases tok with
  | comment text =>
    cases h
    exact push_ok input st _ hst ⟨trivial, trivial⟩
  | script attrs text =>
    cases h
    refine push_ok input st _ hst ⟨⟨Or.inr (Or.inl rfl), fun nv hm => ?_⟩, ⟨trivial, trivial⟩, trivial⟩
    exact Or.inl (infix_of_infix_suffix (htok nv hm) hs)
  | style attrs text =>
    simp only [parseStep] at h
    split at h
    · cases h
      refine push_ok input st _ hst ⟨⟨Or.inr (Or.inr rfl), fun nv hm => ?_⟩, ⟨trivial, trivial⟩, trivial⟩
      exact Or.inl (infix_of_infix_suffix (htok nv hm) hs)
    · cases h
  | tag closing name attrs =>
    cases closing with
    | true =>
      simp only [parseStep] at h
      split at h
      · cases h
        exact closeN_ok input _ st hst
      · cases h
        exact hst
    | false =>
      simp only [parseStep] at h
      have h1 : framesOk input (applyNoNest name st).stack := applyNoNest_ok input name st hst
      have h1b : framesOk input
          (if name = "html".data then { applyNoNest name st with htmlSeen := true }
           else applyNoNest name st).stack := by
        split
        · exact h1
        · exact h1
      split at h
      · cases h
        refine push_ok input _ _ h1b ⟨⟨Or.inl (infix_of_infix_suffix htok.1 hs),
          fun nv hm => Or.inl (infix_of_infix_suffix (htok.2 nv hm) hs)⟩, trivial⟩
      · cases h
        exact ⟨⟨⟨Or.inl (infix_of_infix_suffix htok.1 hs),
          fun nv hm => Or.inl (infix_of_infix_suffix (htok.2 nv hm) hs)⟩, trivial⟩, h1b⟩
  | text text =>
    cases h
    exact push_ok input st _ hst ⟨trivial, trivial⟩
  | doctype text =>
    cases h
    exact hst

lemma parseLoop_ok (input : Str) :
    ∀ (fuel : Nat) (s : Str) (st : PState) (dom : Node),
      s <:+ input → framesOk input st.stack →
      parseLoop fuel s st = .ok dom → nodeNamesOk input dom := by
  intro fuel
  induction fuel with
  | zero =>
    intro s st dom hs hst h
    cases s with
    | nil => cases h; exact finish_ok input st hst
    | cons c cs => cases h
  | succ n ih =>
    intro s st dom hs hst h
    cases s with
    | nil => cases h; exact finish_ok input st hst
    | cons c cs =>
      simp only [parseLoop] at h
      split at h
      · cases h
      · rename_i x0 rest tok heqT
        split at h
        · cases h
        · rename_i st2 heqS
          refine ih rest st2 dom ((html_token_suff _ _ _ heqT).trans hs) ?_ h
          exact parseStep_ok input (c :: cs) st st2 tok hst
            (html_token_names _ _ _ heqT) hs heqS

lemma parse_html_names (input : Str) (dom : Node) (h : parse_html input = .ok dom) :
    nodeNamesOk input dom := by
  simp only [parse_html] at h
  exact parseLoop_ok input input.length input ⟨[⟨.document, []⟩], false⟩ dom
    (List.suffix_refl input) ⟨⟨trivial, trivial⟩, trivial⟩ h

/-! ## Claim theorems -/

/-- C2: `invalidate_layout` maps `LaidOut{location, response_body, dom,
layout, viewport}` to `Styled{location, response_body, dom}` and is the
identity on every other state; applying it twice equals applying it
once. -/
theorem c2_invalidate_layout_drops_to_styled (s : OwnedDocument) :
    (match s with
     | .laidOut l b d _ _ => s.invalidate_layout = .styled l b d
     | _ => s.invalidate_layout = s)
    ∧ s.invalidate_layout.invalidate_layout = s.invalidate_layout := by
  cases s <;> exact ⟨rfl, rfl⟩

/-- C3 (counterexample): on the C3 stylesheet and document the computed
color of the `a` element is not red. -/
theorem c3_computed_color_not_red :
    c3ComputedColor ≠ some ⟨0xff, 0, 0, 0xff⟩ := by
  rw [c3_value]; decide

/-- C3 (amended): the computed color of the `a` element is black, the
initial color: the `p a` rule is dropped by the rule parser (the
complex-selector parser never accepts a descendant combinator, so error
recovery skips the whole rule), and the `a` rule's declaration value
parses as `"blue "` with a trailing space, which `CssColor::parse`
rejects, so no declaration applies. -/
theorem c3_computed_color_is_black :
    c3ComputedColor = some Color32.BLACK := c3_value

/-- C4 (counterexample): tokenizing the text `&amp;amp &amp;=x` does
not yield the text `& &amp;=x`. -/
theorem c4_entity_text_not_spec :
    (htmlTokens c4Input).map textConcat ≠ some "& &amp;=x".data := by
  rw [show (htmlTokens c4Input).map textConcat = some "&amp &=x".data from rfl]
  decide

/-- C4 (amended): the without-semicolon verbatim rule applies only
inside attribute values (`in_attr`); in text content a
without-semicolon reference resolves even when `=` or an alphanumeric
follows. Tokenizing the text `&amp;amp &amp;=x` yields `&amp &=x`. -/
theorem c4_entity_verbatim_only_in_attr :
    (htmlTokens c4Input).map textConcat = some "&amp &=x".data
    ∧ html_entity true "&amp=x".data = some ("=x".data, "&amp".data)
    ∧ html_entity false "&amp=x".data = some ("=x".data, "&".data) :=
  ⟨rfl, rfl, rfl⟩

/-- C6: the percent-decoding loop of `request`'s `data:` branch panics
(`char_indices().nth(1).unwrap()` on a one-character remainder)
whenever the body ends in a character that is not part of a `%HH`
escape; a body ending in an escape decodes to status 200 with the
percent-decoded bytes. -/
theorem c6_data_url_trailing_char_panics :
    request_data "data:text/plain,a".data = .error .nthPanic
    ∧ request_data "data:text/plain,a%20".data = .ok (200, [], [97, 32]) :=
  ⟨rfl, rfl⟩

/-- C9 (counterexample): `Style::apply` does not overlay `margin`: a
margin set in `other` is ignored. -/
theorem c9_apply_ignores_margin :
    (Style.apply Style.empty
        { Style.empty with margin := CssQuad.one (some (.px 5)) }).margin
      = CssQuad.dfl
    ∧ CssQuad.dfl ≠ CssQuad.one (some (CssLength.px 5)) := by
  refine ⟨rfl, fun h => ?_⟩
  simpa [CssQuad.dfl, CssQuad.one, CssQuad.four] using congrArg CssQuad.top h

/-- C9 (amended): `Style::apply` overlays only `display`,
`background_color` and `color`; `margin`, `padding`, `border`, `font`,
`width`, `height` and `text_align` always keep `self`'s value. -/
theorem c9_apply_field_characterization (s other : Style) :
    (s.apply other).display = other.display.or s.display
    ∧ (s.apply other).background_color = other.background_color.or s.background_color
    ∧ (s.apply other).color = other.color.or s.color
    ∧ (s.apply other).margin = s.margin
    ∧ (s.apply other).padding = s.padding
    ∧ (s.apply other).border = s.border
    ∧ (s.apply other).font = s.font
    ∧ (s.apply other).width = s.width
    ∧ (s.apply other).height = s.height
    ∧ (s.apply other).text_align = s.text_align :=
  ⟨rfl, rfl, rfl, rfl, rfl, rfl, rfl, rfl, rfl, rfl⟩

/-- C7: a failing layout run returns the root box with its display
list untouched, and a box fresh from `Layout::with_node` (as the driver
creates the root) has an empty display list, so no partial display
list is ever exposed. -/
theorem c7_layout_error_keeps_display_list (fonts : FontOracle) (swb : SplitWords)
    (vp : ViewportInfo) (lb lb2 : OwnedLayout) (e : LayoutErr)
    (h : Layout.layout fonts swb lb vp = (lb2, some e)) :
    lb2.display_list = lb.display_list
    ∧ ∀ (dom : Node) (avail : ℚ), (Layout.with_node dom avail).display_list = [] := by
  refine ⟨?_, fun dom avail => rfl⟩
  simp only [Layout.layout] at h
  split at h
  · cases h; rfl
  split at h
  · cases h; rfl
  split at h
  · cases h; rfl
  split at h
  · rename_i lbX dlX eX heqF
    cases h
    have h2 := congrArg (fun t => t.1.display_list) heqF
    simp only at h2
    rw [layF_display_list] at h2
    exact h2.symm
  · cases h

/-- C7 (witness): a concrete failing run — every font lookup fails —
returns the root with its (empty) display list intact. -/
theorem c7_layout_error_witness :
    Layout.layout fontsErr swb0 (Layout.with_node c7Dom 800) vp0
      = (c7Box, some (.fontErr "no font".data))
    ∧ c7Box.display_list = [] := by
  refine ⟨rfl, ?_⟩
  have h := c7_layout_error_keeps_display_list fontsErr swb0 vp0
    (Layout.with_node c7Dom 800) c7Box (.fontErr "no font".data) rfl
  exact h.1.trans rfl

/-- C8: on a successful layout run over a fresh root box, every box of
the resulting tree has only children-boxes, only inlines, or neither —
never both. -/
theorem c8_box_invariant (fonts : FontOracle) (swb : SplitWords) (vp : ViewportInfo)
    (dom : Node) (avail : ℚ) (lb2 : OwnedLayout)
    (h : Layout.layout fonts swb (Layout.with_node dom avail) vp = (lb2, Option.none)) :
    ∀ b ∈ allBoxes lb2, boxesInv b.children b.inlines = true := by
  simp only [Layout.layout] at h
  split at h
  · simp at h
  split at h
  · simp at h
  split at h
  · simp at h
  split at h
  · simp at h
  · rename_i lbX dlX heqF
    have h1 := congrArg (fun t => t.1) h
    simp only at h1
    have hX : boxInvTree lbX = true :=
      layF_inv fonts swb vp _ _ _ lbX dlX rfl heqF
    rw [← h1]
    intro b hm
    rw [allBoxes_eq] at hm
    rcases List.mem_cons.mp hm with hh | ht
    · subst hh
      exact boxInvTree_mem lbX hX lbX (by rw [allBoxes_eq]; exact List.mem_cons_self _ _)
    · exact boxInvTree_mem lbX hX b (by rw [allBoxes_eq]; exact List.mem_cons_of_mem _ ht)

/-- C8 (witness): the empty document lays out successfully and its one
box satisfies the invariant. -/
theorem c8_box_invariant_witness :
    Layout.layout fontsErr swb0 (Layout.with_node c8Dom 800) vp0 = (c8Box, Option.none)
    ∧ boxesInv c8Box.children c8Box.inlines = true := by
  refine ⟨rfl, ?_⟩
  exact c8_box_invariant fontsErr swb0 vp0 c8Dom 800 c8Box rfl c8Box
    ((show allBoxes c8Box = [c8Box] from rfl) ▸ List.mem_singleton_self c8Box)

/-- C1: a successful `tick` advances exactly one phase — `None` stays
`None`, `Navigated` becomes `Loaded`, `Loaded` becomes `Parsed`,
`Parsed` becomes `Styled`, `Styled` becomes `LaidOut` at the given
viewport, `LaidOut` returns unchanged — and the location, response
body and DOM the input state carries are carried forward (the style
phase only fills in node styles: the stripped DOM is unchanged). -/
theorem c1_tick_advances_one_phase (ext : Ext) (s : OwnedDocument) (v : ViewportInfo)
    (r : OwnedDocument) (h : tick ext s v = .ok r) :
    match s with
    | .none => r = .none
    | .navigated l => ∃ b, r = .loaded l b
    | .loaded l b => ∃ d, r = .parsed l b d
    | .parsed l b d => ∃ d2, r = .styled l b d2 ∧ d2.strip = d.strip
    | .styled l b d => ∃ lay, r = .laidOut l b d lay v
    | .laidOut .. => r = s := by
  cases s with
  | none =>
    simp only [tick] at h
    cases h
    rfl
  | navigated l =>
    simp only [tick, docLoad] at h
    split at h
    · cases h; exact ⟨_, rfl⟩
    · cases h
  | loaded l b =>
    simp only [tick, docParse] at h
    split at h
    · cases h; exact ⟨_, rfl⟩
    · cases h
  | parsed l b d =>
    simp only [tick, docStyle] at h
    split at h
    · rename_i dom2 heqR
      cases h
      exact ⟨dom2, rfl, resolve_styles_strip _ _ _ heqR⟩
    · cases h
  | styled l b d =>
    simp only [tick, docLayout] at h
    split at h
    · cases h
    · rename_i lay2 heq
      cases h
      exact ⟨lay2, rfl⟩
  | laidOut l b d lay vp2 =>
    simp only [tick] at h
    cases h
    rfl

/-- C1 (witness): a concrete `Navigated` state loads. -/
theorem c1_tick_witness :
    ∃ b, OwnedDocument.loaded "u".data [] = .loaded "u".data b :=
  c1_tick_advances_one_phase ext0 (.navigated "u".data) vp0 (.loaded "u".data []) rfl

/-- C5 (counterexample): parsing `<DIV ID=x>t</DIV>` yields an element
named `DIV` with an attribute named `ID` — names are not lowercased on
intake. -/
theorem c5_names_not_lowercased :
    parse_html c5Src = .ok c5DomLit ∧ namesLower c5DomLit = false :=
  ⟨rfl, rfl⟩

/-- C5 (amended): the tree constructor stores every element and
attribute name verbatim: each name in the resulting DOM occurs,
character for character, as a contiguous substring of the input (or is
one of the parser-synthesized lowercase `script`/`style` element
names); on the concrete mixed-case input the uppercase names survive
unchanged. -/
theorem c5_names_verbatim :
    (∀ (input : Str) (dom : Node), parse_html input = .ok dom → nodeNamesOk input dom)
    ∧ parse_html c5Src = .ok c5DomLit :=
  ⟨parse_html_names, rfl⟩

/-- C10: every successful `html_token` call consumes at least one
character (the rest is strictly shorter), and consequently the fuelled
token loop of `parse_html` never exhausts its fuel: parsing terminates
on every input. -/
theorem c10_html_token_consumes :
    (∀ (input rest : Str) (tok : HtmlToken),
        html_token input = some (rest, tok) → rest.length < input.length)
    ∧ ∀ input : Str, parse_html input ≠ .error .fuel := by
  refine ⟨html_token_cons, fun input => ?_⟩
  simp only [parse_html]
  exact parseLoop_no_fuel (input.length) input _ (Nat.le_refl _)

end Wbe
